import Mathlib

/-!
Verification development for the includekit-js repository: an ORM-integrated
query-result cache with dependency-aware invalidation.

The Lean definitions below are shallow embeddings of the TypeScript source:

* `IncludeKit.MemoryLRU` embeds `packages/core/src/cache/memory.ts`
  (the in-process LRU cache with TTL).  A JavaScript `Map` is modelled as an
  association list in insertion order; `Map.delete` removes the entry with the
  given key, `Map.set` updates in place when the key is present and appends
  otherwise.  `Date.now()` is passed in explicitly as a `Nat` wall-clock.
* `IncludeKit.JSValue` and `IncludeKit.stringify` embed the JSON value space
  and the ECMA-262 `JSON.stringify` string quoting used by
  `packages/core/src/engine/loader.ts` (`WASMEngine.callWithJSON`).
* `IncludeKit.loadSchema` embeds the validation part of
  `packages/orchestrator/src/schema.ts` (the `config.json` branch; file
  loading is I/O and is elided — validation starts from the parsed value).
* `IncludeKit.buildStatement` embeds
  `packages/prisma-mapper/src/statement-builder.ts` together with
  `operators.ts`.
* `IncludeKit.Seq` embeds the coordinator of the orchestrator
  (`withORM` in the orchestrator index, `executeRead` / `executeWrite` /
  `commitTransaction` / `rollbackTransaction`) as sequential functions with an
  explicit effect log, for the claims about a single call run in isolation.
* `IncludeKit.Coord` embeds the same coordinator as a small-step transition
  system for the claims about concurrent `executeRead` calls, following the
  cooperative scheduling model: interleaving happens at the genuinely
  asynchronous suspension points (the DB `execute()` call, the single-flight
  timeout timer, and the settling of the raced promise); the in-process cache
  and engine calls are `async` methods whose bodies contain no `await` and are
  treated as synchronous.
-/

namespace IncludeKit

/-! ### Association lists modelling JavaScript `Map` -/

/-- Lookup in a JavaScript `Map` modelled as an association list (first match;
a valid `Map` has unique keys, which every operation below preserves). -/
def mapGet {κ α : Type} [DecidableEq κ] (l : List (κ × α)) (k : κ) : Option α :=
  match l with
  | [] => none
  | (k2, v) :: rest => if k2 = k then some v else mapGet rest k

/-- JavaScript `Map.set`: update in place when the key is present (keeping its
insertion position), append at the end otherwise. -/
def mapSet {κ α : Type} [DecidableEq κ] (l : List (κ × α)) (k : κ) (v : α) :
    List (κ × α) :=
  match l with
  | [] => [(k, v)]
  | (k2, v2) :: rest =>
    if k2 = k then (k2, v) :: rest else (k2, v2) :: mapSet rest k v

/-- JavaScript `Map.delete`: remove the entry with the given key.  On a valid
`Map` keys are unique, so removing every occurrence coincides with removing
the single entry. -/
def mapDelete {κ α : Type} [DecidableEq κ] (l : List (κ × α)) (k : κ) :
    List (κ × α) :=
  match l with
  | [] => []
  | (k2, v) :: rest =>
    if k2 = k then mapDelete rest k else (k2, v) :: mapDelete rest k

/-! ### The in-process LRU cache (`packages/core/src/cache/memory.ts`) -/

namespace MemoryLRU

/-- Embeds the `CacheEntry<V>` record of `memory.ts`. -/
structure CacheEntry (V : Type) where
  value : V
  expiresAt : Nat
  lastAccessed : Nat
deriving DecidableEq

/-- Embeds the `MemoryLRU` class state: the backing `Map` in insertion order
plus the configuration fields.  The background cleanup timer is a process
resource and is not part of the claims modelled here. -/
structure LRU (V : Type) where
  cache : List (String × CacheEntry V)
  maxItems : Nat
  defaultTtlMs : Nat
deriving DecidableEq

/-- Embeds the constructor: empty map with the configured bounds
(`maxItems ?? 10000`, `defaultTtlMs ?? 300000` resolved by the caller). -/
def mk (maxItems defaultTtlMs : Nat) {V : Type} : LRU V :=
  ⟨[], maxItems, defaultTtlMs⟩

/-- Embeds `MemoryLRU.evictOldest`: delete the first (oldest-inserted) entry
of the map, if any. -/
def evictOldest {V : Type} (l : List (String × CacheEntry V)) :
    List (String × CacheEntry V) :=
  match l with
  | [] => []
  | _ :: rest => rest

/-- Embeds `MemoryLRU.get(key)` at wall-clock `now`: absent gives `undefined`;
an entry with `now >= expiresAt` is deleted and gives `undefined`; otherwise
`lastAccessed` is updated and the entry is re-inserted at the end (delete then
set), making it the most recently inserted.  Returns the value and the
updated cache state. -/
def get {V : Type} (s : LRU V) (now : Nat) (k : String) :
    Option V × LRU V :=
  match mapGet s.cache k with
  | none => (none, s)
  | some e =>
    if e.expiresAt ≤ now then
      (none, { s with cache := mapDelete s.cache k })
    else
      let e2 := { e with lastAccessed := now }
      (some e.value,
        { s with cache := mapSet (mapDelete s.cache k) k e2 })

/-- Embeds `MemoryLRU.set(key, value, ttlMs)` at wall-clock `now`:
`expiresAt = now + (ttlMs || defaultTtlMs)` (JavaScript `||`: a `ttlMs` of 0
falls back to the default); when the map is at capacity and the key is not
already present, the oldest entry is evicted first. -/
def set {V : Type} (s : LRU V) (now : Nat) (k : String) (v : V)
    (ttlMs : Nat) : LRU V :=
  let expiresAt := now + (if ttlMs = 0 then s.defaultTtlMs else ttlMs)
  let c1 :=
    if s.maxItems ≤ s.cache.length ∧ (mapGet s.cache k).isNone then
      evictOldest s.cache
    else s.cache
  { s with cache := mapSet c1 k ⟨v, expiresAt, now⟩ }

/-- Embeds `MemoryLRU.del(key)`. -/
def del {V : Type} (s : LRU V) (k : String) : LRU V :=
  { s with cache := mapDelete s.cache k }

/-- An operation on the cache, for stating invariants over arbitrary
`get`/`set`/`del` sequences. -/
inductive CacheOp (V : Type) where
  | get (now : Nat) (k : String)
  | set (now : Nat) (k : String) (v : V) (ttlMs : Nat)
  | del (k : String)
deriving DecidableEq

/-- State effect of one cache operation. -/
def applyOp {V : Type} (s : LRU V) : CacheOp V → LRU V
  | .get now k => (get s now k).2
  | .set now k v ttlMs => set s now k v ttlMs
  | .del k => del s k

/-- Run a sequence of cache operations. -/
def runOps {V : Type} (s : LRU V) (ops : List (CacheOp V)) : LRU V :=
  ops.foldl applyOp s

end MemoryLRU

/-! ### JavaScript values and `JSON.stringify` -/

/-- A JavaScript value as far as the embedded code observes it.  Numbers are
modelled as integers (the schemas, statements and mutations of this system
carry integral versions, lengths and ids; `NaN`/float formatting is not
exercised by any claim).  Objects are field lists in insertion order, which is
the `Object.entries` enumeration order for string keys. -/
inductive JSValue where
  | null
  | undefined
  | bool (b : Bool)
  | num (n : Int)
  | str (s : String)
  | arr (elems : List JSValue)
  | obj (fields : List (String × JSValue))

namespace JSValue

/-- JavaScript strict equality `v === "s"` against a string literal. -/
def eqStr (v : JSValue) (s : String) : Bool :=
  match v with
  | .str s2 => s2 = s
  | _ => false

/-- JavaScript strict equality `v === n` against a number literal. -/
def eqNum (v : JSValue) (n : Int) : Bool :=
  match v with
  | .num n2 => n2 = n
  | _ => false

/-- JavaScript truthiness: `undefined`, `null`, `false`, `0` and the empty
string are falsy; every object and array is truthy. -/
def truthy : JSValue → Bool
  | .null => false
  | .undefined => false
  | .bool b => b
  | .num n => n ≠ 0
  | .str s => s ≠ ""
  | .arr _ => true
  | .obj _ => true

/-- Property read `v[k]`.  On objects this is the field lookup; elsewhere the
embedding returns `undefined` (the code only dereferences properties behind
truthiness guards, and no claim exercises the `TypeError` of reading a
property of `null`/`undefined`). -/
def jsGet : JSValue → String → JSValue
  | .obj fields, k => (mapGet fields k).getD .undefined
  | _, _ => .undefined

/-- The `typeof v === "number"` test. -/
def isNumber : JSValue → Bool
  | .num _ => true
  | _ => false

/-- The `typeof v === "string"` test. -/
def isString : JSValue → Bool
  | .str _ => true
  | _ => false

/-- The `Array.isArray(v)` test, returning the elements. -/
def asArray : JSValue → Option (List JSValue)
  | .arr elems => some elems
  | _ => none

/-- The `typeof v === "object" && v !== null` shape test (arrays included). -/
def isObjectLike : JSValue → Bool
  | .obj _ => true
  | .arr _ => true
  | _ => false

/-- The `"k" in v` property-existence test (objects only; no claim exercises
prototype members of primitives or arrays). -/
def hasKey : JSValue → String → Bool
  | .obj fields, k => (mapGet fields k).isSome
  | _, _ => false

/-- The `v.length` property as observed through `=== 0` style comparisons:
arrays and strings report their length, everything else `undefined`. -/
def jsLength : JSValue → JSValue
  | .arr elems => .num elems.length
  | .str s => .num s.length
  | _ => .undefined

/-- The `Object.entries(v)` enumeration: object fields in insertion order,
array elements under their decimal index keys, empty elsewhere. -/
def entries : JSValue → List (String × JSValue)
  | .obj fields => fields
  | .arr elems => (elems.enum.map fun p => (toString p.1, p.2))
  | _ => []

end JSValue

mutual

/-- Structural size of a value, used as the recursion fuel of the statement
builder (any fuel at least the size computes the JS recursion fully). -/
def sizeVal : JSValue → Nat
  | .null => 1
  | .undefined => 1
  | .bool _ => 1
  | .num _ => 1
  | .str _ => 1
  | .arr elems => 1 + sizeElems elems
  | .obj fields => 1 + sizeFields fields

/-- Combined size of array elements. -/
def sizeElems : List JSValue → Nat
  | [] => 0
  | v :: rest => 1 + sizeVal v + sizeElems rest

/-- Combined size of object fields. -/
def sizeFields : List (String × JSValue) → Nat
  | [] => 0
  | (_, v) :: rest => 1 + sizeVal v + sizeFields rest

end

/-- Lower four bits of a number as a lowercase hexadecimal digit, for the
`\u00XX` escapes produced by `JSON.stringify`. -/
def hexDigit (n : Nat) : Char :=
  if n < 10 then Char.ofNat (48 + n) else Char.ofNat (87 + n)

/-- ECMA-262 `QuoteJSONString` escaping of one character: `"` and `\` get a
backslash escape, the five control characters with short forms get those, any
other code point below U+0020 becomes a `\u00XX` escape, and everything else
is copied verbatim.  In particular a NUL character is emitted as the six-byte
escape, never as a literal NUL. -/
def escapeChar (c : Char) : String :=
  if c = '"' then "\\\""
  else if c = '\\' then "\\\\"
  else if c = '\x08' then "\\b"
  else if c = '\x09' then "\\t"
  else if c = '\x0a' then "\\n"
  else if c = '\x0c' then "\\f"
  else if c = '\x0d' then "\\r"
  else if c.toNat < 32 then
    "\\u00" ++ String.mk [hexDigit (c.toNat / 16), hexDigit (c.toNat % 16)]
  else String.singleton c

/-- ECMA-262 JSON string quoting: surrounding double quotes with every
character escaped by `escapeChar`. -/
def quoteJSONString (s : String) : String :=
  "\"" ++ String.join (s.data.map escapeChar) ++ "\""

/-- Comma-join of already-rendered parts. -/
def joinComma : List String → String
  | [] => ""
  | [x] => x
  | x :: xs => x ++ "," ++ joinComma xs

mutual

/-- ECMA-262 `JSON.stringify` on a (defined) value: `undefined` array elements
serialize as `null`, `undefined` object properties are skipped (see
`stringifyFieldParts`). -/
def stringifyVal : JSValue → String
  | .null => "null"
  | .undefined => "null"
  | .bool true => "true"
  | .bool false => "false"
  | .num n => toString n
  | .str s => quoteJSONString s
  | .arr elems => "[" ++ joinComma (stringifyElemParts elems) ++ "]"
  | .obj fields => "\x7b" ++ joinComma (stringifyFieldParts fields) ++ "\x7d"

/-- Rendered array elements, in order. -/
def stringifyElemParts : List JSValue → List String
  | [] => []
  | v :: rest => stringifyVal v :: stringifyElemParts rest

/-- Rendered `"key":value` object members, skipping `undefined`-valued
properties as `JSON.stringify` does. -/
def stringifyFieldParts : List (String × JSValue) → List String
  | [] => []
  | (k, v) :: rest =>
    match v with
    | .undefined => stringifyFieldParts rest
    | v => (quoteJSONString k ++ ":" ++ stringifyVal v) :: stringifyFieldParts rest

end

/-- Top-level `JSON.stringify`: on `undefined` it returns `undefined` (no
string); the subsequent `.includes` call in `callWithJSON` would then throw,
landing in the serialization-error branch. -/
def stringifyTop : JSValue → Option String
  | .undefined => none
  | v => some (stringifyVal v)

/-- Whether a string contains a literal NUL character — the
`json.includes('\0')` test of `callWithJSON`. -/
def containsNul (s : String) : Bool :=
  s.data.any (fun c => c = '\x00')

/-- Outcome of `WASMEngine.callWithJSON` as far as serialization is concerned:
either the serialization guard threw, or the engine function was invoked with
the given UTF-8 JSON payload. -/
inductive CallOutcome where
  | serializationError (msg : String)
  | invoked (json : String)
deriving DecidableEq

/-- Embeds `WASMEngine.callWithJSON` (`packages/core/src/engine/loader.ts`,
lines 105–140): `JSON.stringify` the input, throw a serialization error if
the resulting JSON string contains a literal NUL, otherwise copy the bytes
into linear memory and invoke the engine function.  The linear-memory
marshalling (`ik_malloc`/copy/`ik_free`) and the engine status are effects of
the external engine module; `invoked` records that the engine function was
reached with the given payload. -/
def callWithJSON (input : JSValue) : CallOutcome :=
  match stringifyTop input with
  | none => .serializationError "Failed to serialize input"
  | some json =>
    if containsNul json then
      .serializationError "Failed to serialize input: Input contains NULL bytes"
    else
      .invoked json

/-! ### Schema validation (`packages/orchestrator/src/schema.ts`) -/

/-- Embeds the validation of one model inside `loadSchema` (lines 47–64),
returning the first error or `none`.  The interpolated model name in the
error text is elided. -/
def validateModel (model : JSValue) : Option String :=
  let name := model.jsGet "name"
  if ¬ name.truthy ∨ ¬ name.isString then
    some "Invalid schema: model missing name"
  else
    let id := model.jsGet "id"
    if ¬ id.truthy ∨ ¬ (id.jsGet "kind").truthy then
      some "Invalid schema: model missing id config"
    else
      let fields := id.jsGet "fields"
      if (id.jsGet "kind").eqStr "composite" ∧
          (¬ fields.truthy ∨ fields.jsLength.eqNum 0) then
        some "Invalid schema: model has composite id but no fields"
      else
        none

/-- First validation error over the models array, in order. -/
def validateModels : List JSValue → Option String
  | [] => none
  | m :: rest =>
    match validateModel m with
    | some e => some e
    | none => validateModels rest

/-- Embeds `loadSchema` (`packages/orchestrator/src/schema.ts`, lines 37–66)
from the point where a parsed schema value is in hand (the `config.json`
branch; reading `config.file` is I/O and out of scope of the claims): the
version must be truthy and a number, `models` a non-empty array, and every
model must pass `validateModel`; on success the schema itself is returned. -/
def loadSchema (schema : JSValue) : Except String JSValue :=
  if ¬ (schema.jsGet "version").truthy ∨ ¬ (schema.jsGet "version").isNumber then
    .error "Invalid schema: missing or invalid version field"
  else
    match (schema.jsGet "models").asArray with
    | none => .error "Invalid schema: models must be a non-empty array"
    | some models =>
      if models.length = 0 then
        .error "Invalid schema: models must be a non-empty array"
      else
        match validateModels models with
        | some e => .error e
        | none => .ok schema

/-- The acceptance conditions exactly as claim C10 words them (a schema
violating one of these should be rejected, every other schema returned):
version present and numeric; models a non-empty array; every model has a name
and an id descriptor; a composite id has a non-empty fields list. -/
def claimSchemaOK (schema : JSValue) : Bool :=
  (schema.jsGet "version").isNumber &&
  (match (schema.jsGet "models").asArray with
   | none => false
   | some models =>
     decide (models.length ≠ 0) &&
     models.all fun m =>
       (m.jsGet "name").isString &&
       (m.jsGet "id").truthy && ((m.jsGet "id").jsGet "kind").truthy &&
       (!((m.jsGet "id").jsGet "kind").eqStr "composite" ||
         (((m.jsGet "id").jsGet "fields").truthy &&
          !((m.jsGet "id").jsGet "fields").jsLength.eqNum 0)))

/-- Per-model acceptance condition the code actually enforces (amended claim
C10): a truthy string name, a truthy id with a truthy kind, and for a
composite kind a truthy fields value whose length is not strictly 0. -/
def modelValid (m : JSValue) : Bool :=
  (m.jsGet "name").truthy && (m.jsGet "name").isString &&
  ((m.jsGet "id").truthy && ((m.jsGet "id").jsGet "kind").truthy &&
    !(((m.jsGet "id").jsGet "kind").eqStr "composite" &&
      (!((m.jsGet "id").jsGet "fields").truthy ||
        ((m.jsGet "id").jsGet "fields").jsLength.eqNum 0)))

/-- The acceptance conditions the code actually enforces, stated from the
amended claim: additionally to C10, the version must be truthy (non-zero) and
each model name must be a non-empty string (JavaScript `!x` guards). -/
def amendedSchemaOK (schema : JSValue) : Bool :=
  (schema.jsGet "version").truthy && (schema.jsGet "version").isNumber &&
  (match (schema.jsGet "models").asArray with
   | none => false
   | some models =>
     decide (models.length ≠ 0) && models.all modelValid)

/-! ### The Prisma statement builder
(`packages/prisma-mapper/src/statement-builder.ts`, `operators.ts`) -/

/-- Embeds the `OrderBy` spec type (field plus `asc`/`desc` direction; the
builder copies whatever string Prisma supplied). -/
structure OrderBy where
  field : String
  direction : String

/-- Embeds the `Pagination` spec type; the builder stores `args.take` and
`args.skip` unchanged as `limit`/`offset`. -/
structure Pagination where
  limit : JSValue
  offset : JSValue

/-- Embeds the `Condition` spec type (`field_path` is the raw `path` value of
a Prisma JSON-path filter). -/
structure Condition where
  field : String
  fieldPath : Option JSValue
  op : String
  value : JSValue

/-- Embeds the recursive `Filter` spec type: optional `AND`/`OR` lists,
optional `NOT`, optional leaf conditions. -/
inductive Filter where
  | mk (fAND : Option (List Filter)) (fOR : Option (List Filter))
      (fNOT : Option Filter) (conditions : Option (List Condition))

/-- Embeds the recursive `Include` spec type (`whereF` stands for the spec
field `where`, a reserved word in Lean). -/
inductive Include where
  | mk (relation : String) (whereF : Option Filter)
      (orderBy : Option (List OrderBy)) (pagination : Option Pagination)
      (includes : Option (List Include))

/-- Embeds the `GroupBy` spec type. -/
structure GroupBy where
  fields : List JSValue
  having : Option Filter

/-- Embeds the `Statement` spec type (`packages/core`, types module):
`whereF` and `includeRels` stand for the spec fields `where` and `include`,
both reserved words in Lean.  `Option` models the `null` the builder assigns
when a clause is absent. -/
structure Statement where
  model : String
  select : Option (List String)
  whereF : Option Filter
  orderBy : Option (List OrderBy)
  pagination : Option Pagination
  includeRels : Option (List Include)
  distinct : Option JSValue
  groupBy : Option GroupBy

/-- Embeds the `SPEC_OPERATORS` table of `operators.ts`. -/
def SPEC_OPERATORS : List (String × String) :=
  [("equals", "eq"), ("not", "ne"), ("in", "in"), ("notIn", "notIn"),
   ("lt", "lt"), ("lte", "lte"), ("gt", "gt"), ("gte", "gte"),
   ("contains", "contains"), ("startsWith", "startsWith"),
   ("endsWith", "endsWith"), ("has", "has"), ("hasEvery", "hasEvery"),
   ("hasSome", "hasSome"), ("isNull", "isNull"), ("isSet", "exists")]

/-- Embeds `mapPrismaOperator`: table lookup, the `search` special case, and
the conservative `unknown:` namespace (the console warning is elided). -/
def mapPrismaOperator (prismaOp : String) : String :=
  match mapGet SPEC_OPERATORS prismaOp with
  | some v => v
  | none =>
    if prismaOp = "search" then "unsupported:search"
    else "unknown:" ++ prismaOp

/-- Embeds `StatementBuilder.mapSelect`: collect the keys whose value is
literally `true`, `null` when empty or absent. -/
def mapSelect (select : JSValue) : Option (List String) :=
  if ¬ select.truthy then none
  else
    let fields := select.entries.foldl (fun acc p =>
      match p.2 with
      | .bool true => acc ++ [p.1]
      | _ => acc) []
    if fields.length > 0 then some fields else none

/-- Embeds the JSON-path block of `mapWhere`'s operator loop: when an `op`
key named `path` is seen, every other entry of the same object becomes a
condition carrying `field_path` and the loop breaks. -/
def pathConds (field : String) (value : JSValue) : List Condition :=
  value.entries.foldl (fun acc p =>
    if p.1 ≠ "path" then
      acc ++ [⟨field, some (value.jsGet "path"), mapPrismaOperator p.1, p.2⟩]
    else acc) []

/-- Embeds the field-operator loop of `mapWhere`: one condition per operator
entry, with the `path` case delegating to `pathConds` and breaking. -/
def opConds (field : String) (value : JSValue) :
    List (String × JSValue) → List Condition
  | [] => []
  | (op, opValue) :: rest =>
    if op = "path" then pathConds field value
    else ⟨field, none, mapPrismaOperator op, opValue⟩ :: opConds field value rest

/-- Embeds the condition-collection pass of `mapWhere` over the entries of the
`where` object: logical keys are skipped, primitive (or `null`) values become
`eq` conditions, relation filters (`some`/`every`/`none`) are skipped, and
operator objects go through `opConds`. -/
def whereConditions (w : JSValue) : List Condition :=
  w.entries.foldl (fun acc p =>
    if p.1 = "AND" ∨ p.1 = "OR" ∨ p.1 = "NOT" then acc
    else if ¬ p.2.isObjectLike then acc ++ [⟨p.1, none, "eq", p.2⟩]
    else if p.2.hasKey "some" ∨ p.2.hasKey "every" ∨ p.2.hasKey "none" then acc
    else acc ++ opConds p.1 p.2 p.2.entries) []

/-- Embeds `StatementBuilder.mapWhere`.  The JavaScript recursion descends
into strictly smaller subvalues of its argument, so the explicit `fuel`
counter is only a termination measure: any fuel at least the size of the
argument computes the recursion fully (`buildStatement` passes
`sizeOf args`). -/
def mapWhere : Nat → JSValue → Option Filter
  | 0, _ => none
  | fuel + 1, w =>
    if ¬ w.truthy ∨ ¬ w.isObjectLike then none
    else
      let andVal := w.jsGet "AND"
      let fAND : Option (List Filter) :=
        if andVal.truthy then
          some (match andVal with
            | .arr ws => (ws.map (mapWhere fuel)).reduceOption
            | v => ([mapWhere fuel v]).reduceOption)
        else none
      let orVal := w.jsGet "OR"
      let fOR : Option (List Filter) :=
        if orVal.truthy then
          some (match orVal with
            | .arr ws => (ws.map (mapWhere fuel)).reduceOption
            | v => ([mapWhere fuel v]).reduceOption)
        else none
      let notVal := w.jsGet "NOT"
      let fNOT : Option Filter :=
        if notVal.truthy then
          match notVal with
          | .arr ws => mapWhere fuel (ws.headD .undefined)
          | v => mapWhere fuel v
        else none
      let conds := whereConditions w
      let fconds := if conds.length > 0 then some conds else none
      if fAND.isSome ∨ fOR.isSome ∨ fNOT.isSome ∨ fconds.isSome then
        some (.mk fAND fOR fNOT fconds)
      else none

/-- Embeds `StatementBuilder.extractOrderBy`: entries with a string value
become `{field, direction}` pairs. -/
def extractOrderBy (order : JSValue) : List OrderBy :=
  order.entries.foldl (fun acc p =>
    match p.2 with
    | .str dir => acc ++ [⟨p.1, dir⟩]
    | _ => acc) []

/-- Embeds `StatementBuilder.mapOrderBy`. -/
def mapOrderBy (orderBy : JSValue) : Option (List OrderBy) :=
  if ¬ orderBy.truthy then none
  else
    let orders :=
      match orderBy with
      | .arr xs => xs.foldl (fun acc o => acc ++ extractOrderBy o) []
      | v => extractOrderBy v
    if orders.length > 0 then some orders else none

/-- Embeds `StatementBuilder.mapPagination`: `null` only when both `take` and
`skip` are `undefined`. -/
def mapPagination (take skip : JSValue) : Option Pagination :=
  match take, skip with
  | .undefined, .undefined => none
  | take, skip => some ⟨take, skip⟩

mutual

/-- Embeds `StatementBuilder.mapInclude` (fuel as in `mapWhere`).  A `null`
relation config would make the JavaScript throw a `TypeError` on property
access; that path is not exercised by any claim and is not modelled. -/
def mapInclude : Nat → JSValue → Option (List Include)
  | 0, _ => none
  | fuel + 1, inc =>
    if ¬ inc.truthy ∨ ¬ inc.isObjectLike then none
    else
      let includes := inc.entries.foldl (fun acc p =>
        match p.2 with
        | .bool true => acc ++ [Include.mk p.1 none none none none]
        | .obj fs => acc ++ [includeOf fuel p.1 (.obj fs)]
        | .arr xs => acc ++ [includeOf fuel p.1 (.arr xs)]
        | _ => acc) []
      if includes.length > 0 then some includes else none

/-- One nested include built from a relation config object, shared by the two
object-like branches of `mapInclude`. -/
def includeOf (fuel : Nat) (relation : String) (cfg : JSValue) : Include :=
  Include.mk relation
    (mapWhere fuel (cfg.jsGet "where"))
    (mapOrderBy (cfg.jsGet "orderBy"))
    (mapPagination (cfg.jsGet "take") (cfg.jsGet "skip"))
    (mapInclude fuel (cfg.jsGet "include"))

end

/-- Embeds `StatementBuilder.mapGroupBy`: `by` is wrapped into a singleton
list unless it is already an array; `having` goes through `mapWhere`. -/
def mapGroupBy (fuel : Nat) (groupBy : JSValue) : GroupBy :=
  ⟨(match groupBy.jsGet "by" with
    | .arr xs => xs
    | v => [v]),
   mapWhere fuel (groupBy.jsGet "having")⟩

/-- The read operations whose interceptors call `executeRead` through
`buildStatement` (`PrismaMapper.extendClient`). -/
inductive PrismaReadOp where
  | findUnique
  | findFirst
  | findMany
deriving DecidableEq

/-- Embeds `StatementBuilder.buildStatement({model, operation, args})`.  The
source destructures only `model` and `args` from its parameter object; the
`operation` member is accepted but never read, which this embedding keeps as
an unused parameter. -/
def buildStatement (model : String) (operation : PrismaReadOp)
    (args : JSValue) : Statement :=
  { model := model,
    select := mapSelect (args.jsGet "select"),
    whereF := mapWhere (sizeVal args) (args.jsGet "where"),
    orderBy := mapOrderBy (args.jsGet "orderBy"),
    pagination := mapPagination (args.jsGet "take") (args.jsGet "skip"),
    includeRels := mapInclude (sizeVal args) (args.jsGet "include"),
    distinct :=
      if (args.jsGet "distinct").truthy then some (args.jsGet "distinct")
      else none,
    groupBy :=
      if (args.jsGet "groupBy").truthy then
        some (mapGroupBy (sizeVal args) (args.jsGet "groupBy"))
      else none }

/-! ### The coordinator, sequential view (`withORM`, orchestrator package)

The caching service built by `withORM` closes over the in-flight map, the
`txEvictions` buffer map, and the stats counters.  `Seq` embeds one call of
`executeRead` / `executeWrite` / `commitTransaction` / `rollbackTransaction`
run in isolation (no interleaved calls, empty in-flight map), with the
externally supplied collaborators as parameters: the engine's
`invalidate` result is the `evict` list, the DB `execute()` outcome is
`execResult`, and the configured insights consumer is `emitFn` (which may
throw).  Cached values and DB results are `Nat`; the `WeakMap` keyed by the
transaction handle is an association list keyed by a `Nat` handle id (the
weakness only affects garbage collection, which has no observable effect
here).  `Date.now()` timestamps of insights events are elided.  The effect
log (`delLog`, `emitted`) records every `cache.del` and every insights
emission in order. -/

namespace Seq

/-- The `eventType` of an insights event. -/
inductive IEventType where
  | hit
  | miss
  | evict
deriving DecidableEq

/-- An insights event as far as the claims observe it (shapeId and type;
timestamps elided). -/
structure IEvent where
  shapeId : String
  eventType : IEventType
deriving DecidableEq

/-- Coordinator-owned state: the cache contents, the transaction eviction
buffers, the effect logs and the stats counters. -/
structure CoordState where
  cache : List (String × Nat)
  txBuffers : List (Nat × List String)
  delLog : List String
  emitted : List IEvent
  totalRequests : Nat
  cacheHits : Nat
deriving DecidableEq

/-- JavaScript `Set.add`: append if not already present (insertion order). -/
def addToSet (l : List String) (x : String) : List String :=
  if x ∈ l then l else l ++ [x]

/-- The `evict.forEach((shapeId) => pending.add(shapeId))` union. -/
def addAll (l : List String) (xs : List String) : List String :=
  xs.foldl addToSet l

/-- The `keys.forEach(emit)` loop: each call is recorded in the emission log;
a throwing consumer aborts the loop and the error propagates (there is no
try/catch around `emit` anywhere in the coordinator). -/
def emitAll (emitFn : IEvent → Except String Unit) (ty : IEventType)
    (keys : List String) (s : CoordState) :
    Except String Unit × CoordState :=
  match keys with
  | [] => (.ok (), s)
  | k :: rest =>
    let s1 := { s with emitted := s.emitted ++ [⟨k, ty⟩] }
    match emitFn ⟨k, ty⟩ with
    | .ok _ => emitAll emitFn ty rest s1
    | .error e => (.error e, s1)

/-- Embeds one isolated `executeRead` (orchestrator, lines 51–123).  The
shapeId comes from `engine.computeShapeId` (deterministic, external) and is a
parameter.  On a hit: count it, emit the `hit` insight, return the cached
result — note the emission happens before the `return`, unguarded.  On a miss
with an empty in-flight map: run `execute`; on its success, register the
query with the engine, cache the result, emit the `miss` insight and resolve;
on failure propagate and leave the cache untouched.  (The published in-flight
promise is created and removed within this single call, so the map is empty
again afterwards; the concurrent view is `Coord.step`.) -/
def executeRead (shapeId : String) (execResult : Except String Nat)
    (emitFn : IEvent → Except String Unit) (s : CoordState) :
    Except String Nat × CoordState :=
  let s0 := { s with totalRequests := s.totalRequests + 1 }
  match mapGet s0.cache shapeId with
  | some result =>
    let s1 := { s0 with cacheHits := s0.cacheHits + 1 }
    let s2 := { s1 with emitted := s1.emitted ++ [⟨shapeId, .hit⟩] }
    match emitFn ⟨shapeId, .hit⟩ with
    | .ok _ => (.ok result, s2)
    | .error e => (.error e, s2)
  | none =>
    match execResult with
    | .error e => (.error e, s0)
    | .ok result =>
      let s1 := { s0 with cache := mapSet s0.cache shapeId result }
      let s2 := { s1 with emitted := s1.emitted ++ [⟨shapeId, .miss⟩] }
      match emitFn ⟨shapeId, .miss⟩ with
      | .ok _ => (.ok result, s2)
      | .error e => (.error e, s2)

/-- The immediate-eviction branch of `executeWrite`: delete every shapeId of
the eviction list from the cache (`Promise.all` of `cache.del`), then emit
one `evict` insight per shapeId. -/
def immediateEvict (evict : List String)
    (emitFn : IEvent → Except String Unit) (s : CoordState) :
    Except String Unit × CoordState :=
  let s1 := { s with
    cache := evict.foldl (fun c k => mapDelete c k) s.cache,
    delLog := s.delLog ++ evict }
  emitAll emitFn .evict evict s1

/-- Embeds `executeWrite` (orchestrator, lines 125–158):
`engine.invalidate(mutation)` is computed before `execute()` and its `evict`
list is a parameter; a failing `execute` is re-thrown with no further effect;
on success, either the eviction set is unioned into the active transaction
buffer (when `txContext` is present and has one), or the evictions are
applied immediately with their insights. -/
def executeWrite (evict : List String) (execResult : Except String Nat)
    (txContext : Option Nat) (emitFn : IEvent → Except String Unit)
    (s : CoordState) : Except String Nat × CoordState :=
  match execResult with
  | .error e => (.error e, s)
  | .ok result =>
    match txContext with
    | some t =>
      match mapGet s.txBuffers t with
      | some pending =>
        (.ok result,
          { s with txBuffers := mapSet s.txBuffers t (addAll pending evict) })
      | none =>
        match immediateEvict evict emitFn s with
        | (.ok _, s1) => (.ok result, s1)
        | (.error e, s1) => (.error e, s1)
    | none =>
      match immediateEvict evict emitFn s with
      | (.ok _, s1) => (.ok result, s1)
      | (.error e, s1) => (.error e, s1)

/-- Embeds `commitTransaction` (orchestrator, lines 160–175): with no buffer
for the handle this is a no-op; otherwise every buffered shapeId is deleted
from the cache, an `evict` insight is emitted per shapeId, and only then is
the buffer entry removed — a throwing consumer leaves the buffer in place. -/
def commitTransaction (t : Nat) (emitFn : IEvent → Except String Unit)
    (s : CoordState) : Except String Unit × CoordState :=
  match mapGet s.txBuffers t with
  | none => (.ok (), s)
  | some pending =>
    let s1 := { s with
      cache := pending.foldl (fun c k => mapDelete c k) s.cache,
      delLog := s.delLog ++ pending }
    match emitAll emitFn .evict pending s1 with
    | (.ok _, s2) => (.ok (), { s2 with txBuffers := mapDelete s2.txBuffers t })
    | (.error e, s2) => (.error e, s2)

/-- Embeds `rollbackTransaction` (orchestrator, lines 177–180): discard the
buffer entry, nothing else. -/
def rollbackTransaction (t : Nat) (s : CoordState) : CoordState :=
  { s with txBuffers := mapDelete s.txBuffers t }

/-- Embeds `__includekit_initTransaction`: publish an empty eviction set for
the transaction handle (called by the `$transaction` facade before the user
callback). -/
def initTransaction (t : Nat) (s : CoordState) : CoordState :=
  { s with txBuffers := mapSet s.txBuffers t [] }

end Seq

/-! ### The coordinator, concurrent view: single-flight `executeRead`

`Coord` embeds the single-flight behaviour of `executeRead` for one fixed
ShapeId `S` as a small-step transition system over scheduler-chosen events.
Granularity follows the cooperative model of the system: code between genuine
suspension points runs atomically.  `engine.computeShapeId`, `cache.get`,
`engine.addQuery`, `cache.set` and the map operations are `async` methods
whose bodies contain no `await` and therefore run synchronously inside the
caller's turn; the genuine suspension points are the DB `execute()` call, the
single-flight timeout timer, and awaiting the raced promise.

The events are:

* `call i` — reader `i` runs `executeRead` from its start through the cache
  lookup and the in-flight check: on a hit it finishes; otherwise it joins
  the published promise, publishing a fresh one (and synchronously invoking
  `execute()`) when none exists.
* `complete f r` — flight `f`'s `execute()` resolves with `r`; the promise
  body continues: `engine.addQuery`, `cache.set(S, {result})`, the `miss`
  insight, and resolution of the raced promise when it is still pending.
  Nothing in this continuation consults or modifies the in-flight map.
* `timerFire f` — flight `f`'s timeout fires; if the raced promise is still
  pending it rejects with the timeout error (otherwise the race is already
  settled and the rejection is ignored).
* `resume i` — a reader awaiting a settled raced promise resumes with its
  outcome; the publisher's `finally` additionally deletes the map entry
  (`inflightRequests.delete(shapeId)` — unconditionally, whatever is
  published).

Because the claims quantify over a single ShapeId with no pre-existing cache
entry, the state carries only that ShapeId's slice of the cache and of the
in-flight map; results are `Nat`.  The DB failure path of the promise body
(propagate, no caching) is not reached in any claim about this model and is
not part of the event alphabet. -/

namespace Coord

/-- Settlement state of the raced promise `Promise.race([executePromise,
timeoutPromise])` of one flight. -/
inductive RaceSt where
  | pending
  | ok (r : Nat)
  | timedOut
deriving DecidableEq

/-- One single-flight execution: its publishing reader, the DB outcome once
`execute()` has resolved, the race settlement, and whether the timer fired. -/
structure Flight where
  publisher : Nat
  execDone : Option Nat
  race : RaceSt
  timerFired : Bool
deriving DecidableEq

/-- Control state of one `executeRead` caller. -/
inductive RdSt where
  | start
  | joined (f : Nat)
  | doneHit (r : Nat)
  | doneOk (r : Nat)
  | doneTimeout
deriving DecidableEq

/-- Global state: the ShapeId's cache slot, its in-flight map entry (the index
of the published flight), all flights ever created, the readers, the stats
counters, and logs of `execute()` invocations (`execCount`), `cache.set`
writes (`setLog`) and `engine.addQuery` calls (`addQueryCount`). -/
structure SFState where
  cache : Option Nat
  inflight : Option Nat
  flights : List Flight
  readers : List RdSt
  totalRequests : Nat
  cacheHits : Nat
  execCount : Nat
  setLog : List Nat
  addQueryCount : Nat
deriving DecidableEq

/-- Scheduler events, see the section header. -/
inductive SFEvent where
  | call (i : Nat)
  | complete (f : Nat) (r : Nat)
  | timerFire (f : Nat)
  | resume (i : Nat)
deriving DecidableEq

/-- One scheduler step; `none` when the event is not enabled in this state. -/
def step (e : SFEvent) (s : SFState) : Option SFState :=
  match e with
  | .call i =>
    match s.readers.get? i with
    | some .start =>
      let s1 := { s with totalRequests := s.totalRequests + 1 }
      match s1.cache with
      | some r =>
        some { s1 with
          cacheHits := s1.cacheHits + 1,
          readers := s1.readers.set i (.doneHit r) }
      | none =>
        match s1.inflight with
        | some f => some { s1 with readers := s1.readers.set i (.joined f) }
        | none =>
          let fid := s1.flights.length
          some { s1 with
            flights := s1.flights ++ [⟨i, none, .pending, false⟩],
            execCount := s1.execCount + 1,
            inflight := some fid,
            readers := s1.readers.set i (.joined fid) }
    | _ => none
  | .complete f r =>
    match s.flights.get? f with
    | some fl =>
      match fl.execDone with
      | some _ => none
      | none =>
        let fl2 := { fl with
          execDone := some r,
          race := match fl.race with
            | .pending => .ok r
            | other => other }
        some { s with
          flights := s.flights.set f fl2,
          addQueryCount := s.addQueryCount + 1,
          cache := some r,
          setLog := s.setLog ++ [r] }
    | none => none
  | .timerFire f =>
    match s.flights.get? f with
    | some fl =>
      if fl.timerFired then none
      else
        let fl2 := { fl with
          timerFired := true,
          race := match fl.race with
            | .pending => .timedOut
            | other => other }
        some { s with flights := s.flights.set f fl2 }
    | none => none
  | .resume i =>
    match s.readers.get? i with
    | some (.joined f) =>
      match s.flights.get? f with
      | some fl =>
        match fl.race with
        | .pending => none
        | .ok r =>
          let s1 := { s with readers := s.readers.set i (.doneOk r) }
          some (if fl.publisher = i then { s1 with inflight := none } else s1)
        | .timedOut =>
          let s1 := { s with readers := s.readers.set i .doneTimeout }
          some (if fl.publisher = i then { s1 with inflight := none } else s1)
      | none => none
    | _ => none

/-- Run a scheduler trace. -/
def run (tr : List SFEvent) (s : SFState) : Option SFState :=
  match tr with
  | [] => some s
  | e :: rest =>
    match step e s with
    | some s1 => run rest s1
    | none => none

/-- Initial state for `n` concurrent readers of a ShapeId with no pre-existing
cache entry. -/
def init (n : Nat) : SFState :=
  ⟨none, none, [], List.replicate n .start, 0, 0, 0, [], 0⟩

/-- A trace in which no single-flight timeout fires. -/
def noTimer (tr : List SFEvent) : Bool :=
  tr.all fun e =>
    match e with
    | .timerFire _ => false
    | _ => true

/-- A reader that has finished its `executeRead`. -/
def RdSt.isDone : RdSt → Bool
  | .start => false
  | .joined _ => false
  | .doneHit _ => true
  | .doneOk _ => true
  | .doneTimeout => true

/-- Number of in-flight executions: flights whose `execute()` has not yet
resolved. -/
def runningCount (s : SFState) : Nat :=
  (s.flights.filter fun fl => fl.execDone.isNone).length

/-- Per-flight part of the timeout-free invariant: the timer has not fired,
the race is not timed out, and an `ok` settlement implies the DB result is in
and cached. -/
def FlOk (s : SFState) (fl : Flight) : Prop :=
  fl.timerFired = false ∧ fl.race ≠ .timedOut ∧
  (∀ r, fl.race = .ok r → fl.execDone = some r ∧ s.cache = some r)

/-- Per-reader part of the timeout-free invariant. -/
def RdOk (s : SFState) : RdSt → Prop
  | .start => True
  | .joined f => f = 0 ∧ s.flights.length = 1
  | .doneHit r => s.cache = some r
  | .doneOk r => ∃ fl, s.flights = [fl] ∧ fl.race = .ok r
  | .doneTimeout => False

/-- Reachability invariant of timeout-free traces from `init n`: at most one
flight ever exists, `execCount` counts the flights, the cache is populated
exactly by the flight's completed result, the in-flight entry points at the
single flight, an empty in-flight slot means the published race has settled
`ok`, and every reader is consistent with the above. -/
structure Inv (s : SFState) : Prop where
  flen : s.flights.length ≤ 1
  exec : s.execCount = s.flights.length
  fl : ∀ fl2 ∈ s.flights, FlOk s fl2
  cache_src : ∀ r, s.cache = some r →
    ∃ fl2, s.flights = [fl2] ∧ fl2.execDone = some r
  cache_none : s.cache = none → ∀ fl2 ∈ s.flights, fl2.execDone = none
  infl : ∀ j, s.inflight = some j → j = 0 ∧ s.flights.length = 1
  infl_none : s.inflight = none → ∀ fl2 ∈ s.flights, ∃ r, fl2.race = .ok r
  rd : ∀ st ∈ s.readers, RdOk s st

end Coord

/-! ## Theorems -/

/-! ### Association-list lemmas -/

theorem mapGet_mapSet_self {κ α : Type} [DecidableEq κ]
    (l : List (κ × α)) (k : κ) (v : α) : mapGet (mapSet l k v) k = some v := by
  induction l with
  | nil => simp [mapSet, mapGet]
  | cons p rest ih =>
    obtain ⟨k2, v2⟩ := p
    by_cases h : k2 = k
    · simp [mapSet, mapGet, h]
    · simp [mapSet, mapGet, h, ih]

theorem mapGet_mapDelete_self {κ α : Type} [DecidableEq κ]
    (l : List (κ × α)) (k : κ) : mapGet (mapDelete l k) k = none := by
  induction l with
  | nil => simp [mapDelete, mapGet]
  | cons p rest ih =>
    obtain ⟨k2, v2⟩ := p
    by_cases h : k2 = k
    · simpa [mapDelete, h] using ih
    · simpa [mapDelete, mapGet, h] using ih

theorem length_mapDelete_le {κ α : Type} [DecidableEq κ]
    (l : List (κ × α)) (k : κ) : (mapDelete l k).length ≤ l.length := by
  induction l with
  | nil => simp [mapDelete]
  | cons p rest ih =>
    obtain ⟨k2, v2⟩ := p
    by_cases hk : k2 = k
    · simp only [mapDelete, hk, if_true]
      exact Nat.le_succ_of_le ih
    · simp only [mapDelete, hk, if_false, List.length_cons]
      exact Nat.succ_le_succ ih

theorem length_mapDelete_lt {κ α : Type} [DecidableEq κ]
    (l : List (κ × α)) (k : κ) (v : α) (h : mapGet l k = some v) :
    (mapDelete l k).length < l.length := by
  induction l with
  | nil => simp [mapGet] at h
  | cons p rest ih =>
    obtain ⟨k2, v2⟩ := p
    by_cases hk : k2 = k
    · simp only [mapDelete, hk, if_true]
      exact Nat.lt_succ_of_le (length_mapDelete_le rest k)
    · simp only [mapGet, hk, if_false] at h
      simp only [mapDelete, hk, if_false, List.length_cons]
      exact Nat.succ_lt_succ (ih h)

theorem mapSet_of_none {κ α : Type} [DecidableEq κ]
    (l : List (κ × α)) (k : κ) (v : α) (h : mapGet l k = none) :
    mapSet l k v = l ++ [(k, v)] := by
  induction l with
  | nil => simp [mapSet]
  | cons p rest ih =>
    obtain ⟨k2, v2⟩ := p
    by_cases hk : k2 = k
    · simp [mapGet, hk] at h
    · simp only [mapGet, hk, if_false] at h
      simp [mapSet, hk, ih h]

theorem length_mapSet_of_some {κ α : Type} [DecidableEq κ]
    (l : List (κ × α)) (k : κ) (v v2 : α) (h : mapGet l k = some v2) :
    (mapSet l k v).length = l.length := by
  induction l with
  | nil => simp [mapGet] at h
  | cons p rest ih =>
    obtain ⟨k3, v3⟩ := p
    by_cases hk : k3 = k
    · simp [mapSet, hk]
    · simp only [mapGet, hk, if_false] at h
      simp [mapSet, hk, ih h]

theorem mapGet_tail_none {κ α : Type} [DecidableEq κ]
    (l : List (κ × α)) (k : κ) (h : mapGet l k = none) :
    mapGet l.tail k = none := by
  cases l with
  | nil => simp [mapGet]
  | cons p rest =>
    obtain ⟨k2, v2⟩ := p
    by_cases hk : k2 = k
    · simp [mapGet, hk] at h
    · simpa [mapGet, hk] using h

/-! ### LRU cache lemmas -/

namespace MemoryLRU

theorem evictOldest_eq_tail {V : Type} (l : List (String × CacheEntry V)) :
    evictOldest l = l.tail := by
  cases l <;> rfl

theorem applyOp_maxItems {V : Type} (s : LRU V) (op : CacheOp V) :
    (applyOp s op).maxItems = s.maxItems := by
  cases op with
  | get now k =>
    show (get s now k).2.maxItems = s.maxItems
    unfold get
    cases h : mapGet s.cache k with
    | none => rfl
    | some e => by_cases he : e.expiresAt ≤ now <;> simp [he]
  | set now k v ttl => rfl
  | del k => rfl

theorem applyOp_length {V : Type} (s : LRU V) (op : CacheOp V)
    (hmax : 1 ≤ s.maxItems) (h : s.cache.length ≤ s.maxItems) :
    (applyOp s op).cache.length ≤ s.maxItems := by
  cases op with
  | get now k =>
    show (get s now k).2.cache.length ≤ s.maxItems
    unfold get
    cases hc : mapGet s.cache k with
    | none => exact h
    | some e =>
      by_cases he : e.expiresAt ≤ now
      · simp only [he, if_true]
        exact le_trans (length_mapDelete_le s.cache k) h
      · simp only [he, if_false]
        rw [mapSet_of_none _ _ _ (mapGet_mapDelete_self s.cache k)]
        rw [List.length_append]
        have := length_mapDelete_lt s.cache k e hc
        simp only [List.length_cons, List.length_nil]
        omega
  | set now k v ttl =>
    have hcache : (set s now k v ttl).cache =
        mapSet (if s.maxItems ≤ s.cache.length ∧ (mapGet s.cache k).isNone then
            evictOldest s.cache else s.cache) k
          ⟨v, now + (if ttl = 0 then s.defaultTtlMs else ttl), now⟩ := rfl
    show (set s now k v ttl).cache.length ≤ s.maxItems
    rw [hcache]
    cases hc : mapGet s.cache k with
    | some e =>
      have hneg : ¬ (s.maxItems ≤ s.cache.length ∧
          (some e : Option (CacheEntry V)).isNone = true) := by simp
      rw [if_neg hneg, length_mapSet_of_some _ _ _ _ hc]
      exact h
    | none =>
      by_cases hlen : s.maxItems ≤ s.cache.length
      · have hpos : s.maxItems ≤ s.cache.length ∧
            (none : Option (CacheEntry V)).isNone = true := ⟨hlen, rfl⟩
        rw [if_pos hpos, evictOldest_eq_tail,
          mapSet_of_none _ _ _ (mapGet_tail_none s.cache k hc),
          List.length_append, List.length_tail]
        simp only [List.length_cons, List.length_nil]
        omega
      · have hneg : ¬ (s.maxItems ≤ s.cache.length ∧
            (none : Option (CacheEntry V)).isNone = true) := by
          intro hx
          exact hlen hx.1
        rw [if_neg hneg, mapSet_of_none _ _ _ hc, List.length_append]
        simp only [List.length_cons, List.length_nil]
        omega
  | del k =>
    show (del s k).cache.length ≤ s.maxItems
    exact le_trans (length_mapDelete_le s.cache k) h

theorem runOps_maxItems {V : Type} (ops : List (CacheOp V)) (s : LRU V) :
    (runOps s ops).maxItems = s.maxItems := by
  induction ops generalizing s with
  | nil => rfl
  | cons op rest ih =>
    show (runOps (applyOp s op) rest).maxItems = s.maxItems
    rw [ih, applyOp_maxItems]

theorem runOps_length {V : Type} (ops : List (CacheOp V)) (s : LRU V)
    (hmax : 1 ≤ s.maxItems) (h : s.cache.length ≤ s.maxItems) :
    (runOps s ops).cache.length ≤ s.maxItems := by
  induction ops generalizing s with
  | nil => exact h
  | cons op rest ih =>
    show (runOps (applyOp s op) rest).cache.length ≤ s.maxItems
    have h1 := applyOp_maxItems s op
    have h2 := applyOp_length s op hmax h
    have := ih (applyOp s op) (by omega) (by omega)
    omega

end MemoryLRU

/-! ### Claims C7 and C8: the in-process LRU cache -/

/-- Claim C7, counterexample.  The claim states that an entry written with
`ttlMs = t` is absent from `get` at any wall-time ≥ t after the `set`.  At
`t = 0` this fails: JavaScript `ttlMs || defaultTtlMs` treats 0 as falsy, so
the entry is stored with the default TTL (300000 here) and `get` at wall-time
`0 + 0` (≥ t) still returns the value instead of `undefined`. -/
theorem claim_C7_counterexample :
    (MemoryLRU.get
        (MemoryLRU.set (MemoryLRU.mk 10000 300000) 0 "k" (42 : Nat) 0)
        (0 + 0) "k").1 = some 42 ∧
    (MemoryLRU.get
        (MemoryLRU.set (MemoryLRU.mk 10000 300000) 0 "k" (42 : Nat) 0)
        (0 + 0) "k").1 ≠ none := by
  constructor <;> decide

/-- Claim C7 (amended): for every key and every positive `ttlMs = t` (a zero
`ttlMs` falls back to `defaultTtlMs` through JavaScript `||`), an entry
written by `set` at wall-time `now` is absent from `get` at any wall-time
≥ `now + t`: `get` returns `undefined` and removes the expired entry. -/
theorem claim_C7 {V : Type} (s : MemoryLRU.LRU V) (now : Nat) (key : String)
    (v : V) (t now2 : Nat) (ht : 1 ≤ t) (hnow : now + t ≤ now2) :
    (MemoryLRU.get (MemoryLRU.set s now key v t) now2 key).1 = none ∧
    mapGet (MemoryLRU.get (MemoryLRU.set s now key v t) now2 key).2.cache key
      = none := by
  have hne : ¬ (t = 0) := by omega
  have hset : mapGet (MemoryLRU.set s now key v t).cache key =
      some ⟨v, now + t, now⟩ := by
    have h1 : (MemoryLRU.set s now key v t).cache =
        mapSet (if s.maxItems ≤ s.cache.length ∧ (mapGet s.cache key).isNone
            then MemoryLRU.evictOldest s.cache else s.cache) key
          ⟨v, now + (if t = 0 then s.defaultTtlMs else t), now⟩ := rfl
    rw [h1, mapGet_mapSet_self, if_neg hne]
  unfold MemoryLRU.get
  rw [hset]
  dsimp only
  rw [if_pos (show now + t ≤ now2 from hnow)]
  exact ⟨rfl, mapGet_mapDelete_self _ _⟩

/-- Witness for the amended claim C7 at a concrete input: `t = 1`, `set` at
wall-time 0, `get` at wall-time 1. -/
theorem claim_C7_witness :
    (1 : Nat) ≤ 1 ∧ 0 + 1 ≤ 1 ∧
    ((MemoryLRU.get
        (MemoryLRU.set (MemoryLRU.mk 10000 300000) 0 "k" (42 : Nat) 1)
        1 "k").1 = none ∧
      mapGet (MemoryLRU.get
        (MemoryLRU.set (MemoryLRU.mk 10000 300000) 0 "k" (42 : Nat) 1)
        1 "k").2.cache "k" = none) :=
  ⟨le_refl 1, by omega,
    claim_C7 (MemoryLRU.mk 10000 300000) 0 "k" 42 1 1 (le_refl 1) (by omega)⟩

/-- Claim C8, counterexample.  The claim states that an LRU constructed with
`maxItems = k` never holds more than `k` entries after any operation
sequence.  At `k = 0` this fails: `set` evicts only one oldest entry before
inserting, so a single `set` on the empty cache yields 1 > 0 entries. -/
theorem claim_C8_counterexample :
    ¬ (∀ (k : Nat) (ops : List (MemoryLRU.CacheOp Nat)),
        (MemoryLRU.runOps (MemoryLRU.mk k 300000) ops).cache.length ≤ k) := by
  intro hcl
  have h := hcl 0 [.set 0 "a" 1 1000]
  exact absurd h (by decide)

/-- Claim C8 (amended): for `maxItems = k ≥ 1` the cache never holds more
than `k` entries after any sequence of `get`/`set`/`del` operations; when
`set` at capacity inserts a new key the evicted entry is the first (oldest
by insertion/re-insertion order) and the new entry is appended last; and a
live `get` re-inserts the accessed entry at the end, making it the most
recently inserted. -/
theorem claim_C8 :
    (∀ (k d : Nat) (ops : List (MemoryLRU.CacheOp Nat)), 1 ≤ k →
      (MemoryLRU.runOps (MemoryLRU.mk k d) ops).cache.length ≤ k)
    ∧ (∀ (V : Type) (s : MemoryLRU.LRU V) (now : Nat) (key : String) (v : V)
        (ttl : Nat) (p : String × MemoryLRU.CacheEntry V)
        (rest : List (String × MemoryLRU.CacheEntry V)),
        s.cache = p :: rest → s.maxItems ≤ s.cache.length →
        mapGet s.cache key = none →
        (MemoryLRU.set s now key v ttl).cache =
          rest ++
            [(key, ⟨v, now + (if ttl = 0 then s.defaultTtlMs else ttl), now⟩)])
    ∧ (∀ (V : Type) (s : MemoryLRU.LRU V) (now2 : Nat) (key : String)
        (e : MemoryLRU.CacheEntry V),
        mapGet s.cache key = some e → now2 < e.expiresAt →
        (MemoryLRU.get s now2 key).1 = some e.value ∧
        (MemoryLRU.get s now2 key).2.cache =
          mapDelete s.cache key ++ [(key, ⟨e.value, e.expiresAt, now2⟩)]) := by
  refine ⟨fun k d ops hk => ?_, fun V s now key v ttl p rest hc hlen hget => ?_,
    fun V s now2 key e hget hlive => ?_⟩
  · exact MemoryLRU.runOps_length ops (MemoryLRU.mk k d) hk (by simp [MemoryLRU.mk])
  · have hcache : (MemoryLRU.set s now key v ttl).cache =
        mapSet (if s.maxItems ≤ s.cache.length ∧ (mapGet s.cache key).isNone
            then MemoryLRU.evictOldest s.cache else s.cache) key
          ⟨v, now + (if ttl = 0 then s.defaultTtlMs else ttl), now⟩ := rfl
    rw [hcache, if_pos ⟨hlen, by rw [hget]; rfl⟩, MemoryLRU.evictOldest_eq_tail]
    have htail : mapGet s.cache.tail key = none := mapGet_tail_none s.cache key hget
    rw [mapSet_of_none _ _ _ htail, hc]
    rfl
  · have hnot : ¬ (e.expiresAt ≤ now2) := by omega
    constructor
    · show (MemoryLRU.get s now2 key).1 = some e.value
      unfold MemoryLRU.get
      rw [hget]
      dsimp only
      rw [if_neg hnot]
    · show (MemoryLRU.get s now2 key).2.cache = _
      unfold MemoryLRU.get
      rw [hget]
      dsimp only
      rw [if_neg hnot]
      show mapSet (mapDelete s.cache key) key ⟨e.value, e.expiresAt, now2⟩ = _
      rw [mapSet_of_none _ _ _ (mapGet_mapDelete_self s.cache key)]

/-- Witness for the amended claim C8 at concrete inputs: a capacity-2 cache
filled by three inserts and a re-inserting `get`. -/
theorem claim_C8_witness :
    ((1 : Nat) ≤ 2 ∧
      (MemoryLRU.runOps (MemoryLRU.mk 2 300000 (V := Nat))
        [.set 0 "a" 1 1000, .set 0 "b" 2 1000, .set 0 "c" 3 1000,
          .get 1 "b"]).cache.length ≤ 2) ∧
    ((MemoryLRU.set
        ⟨[("a", ⟨1, 1000, 0⟩), ("b", ⟨2, 1000, 0⟩)], 2, 300000⟩ 5 "c"
        (3 : Nat) 1000).cache =
      [("b", ⟨2, 1000, 0⟩)] ++ [("c", ⟨3, 1005, 5⟩)]) ∧
    ((MemoryLRU.get
        (⟨[("a", ⟨1, 1000, 0⟩), ("b", ⟨2, 1000, 0⟩)], 2, 300000⟩ :
          MemoryLRU.LRU Nat) 5 "a").1 = some 1 ∧
      (MemoryLRU.get
        (⟨[("a", ⟨1, 1000, 0⟩), ("b", ⟨2, 1000, 0⟩)], 2, 300000⟩ :
          MemoryLRU.LRU Nat) 5 "a").2.cache =
        mapDelete [("a", ⟨1, 1000, 0⟩), ("b", ⟨2, 1000, 0⟩)] "a" ++
          [("a", ⟨1, 1000, 5⟩)]) :=
  ⟨⟨by omega, claim_C8.1 2 300000 _ (by omega)⟩,
    claim_C8.2.1 Nat ⟨[("a", ⟨1, 1000, 0⟩), ("b", ⟨2, 1000, 0⟩)], 2, 300000⟩
      5 "c" 3 1000 ("a", ⟨1, 1000, 0⟩) [("b", ⟨2, 1000, 0⟩)] rfl (by decide)
      (by decide),
    claim_C8.2.2 Nat ⟨[("a", ⟨1, 1000, 0⟩), ("b", ⟨2, 1000, 0⟩)], 2, 300000⟩
      5 "a" ⟨1, 1000, 0⟩ (by decide) (by decide)⟩

/-! ### Claim C9: NUL-byte payloads in the Engine Client -/

/-- Claim C9 (evaluation at the failing input).  The claim states that the
client rejects, with a serialization error and without invoking the engine
function, every payload containing a NUL byte.  The code instead checks the
already-serialized JSON for a literal NUL, but `JSON.stringify` escapes every
control character, so for the payload `{"a": "a\0b"}` (whose string value
does contain a NUL byte) serialization succeeds with the escaped JSON and the
engine function is invoked. -/
theorem claim_C9 :
    containsNul "a\x00b" = true ∧
    callWithJSON (.obj [("a", .str "a\x00b")]) =
      .invoked "\x7b\"a\":\"a\\u0000b\"\x7d" := by
  exact ⟨rfl, rfl⟩

/-! ### Claim C10: schema validation -/

/-- Claim C10, counterexample.  The claim states `loadSchema` returns the
schema exactly when the version is present and numeric (plus the model
conditions).  The schema with `version: 0` satisfies every condition of the
claim, yet `loadSchema` throws: the code guard is `!schema.version || ...`,
and JavaScript treats the number 0 as falsy. -/
theorem claim_C10_counterexample :
    claimSchemaOK (.obj [("version", .num 0),
      ("models", .arr [.obj [("name", .str "User"),
        ("id", .obj [("kind", .str "string")])]])]) = true ∧
    loadSchema (.obj [("version", .num 0),
      ("models", .arr [.obj [("name", .str "User"),
        ("id", .obj [("kind", .str "string")])]])]) =
      .error "Invalid schema: missing or invalid version field" := by
  exact ⟨rfl, rfl⟩

theorem validateModel_none_iff (m : JSValue) :
    validateModel m = none ↔ modelValid m = true := by
  unfold validateModel modelValid
  cases h1 : (m.jsGet "name").truthy <;>
  cases h2 : (m.jsGet "name").isString <;>
  cases h3 : (m.jsGet "id").truthy <;>
  cases h4 : ((m.jsGet "id").jsGet "kind").truthy <;>
  cases h5 : ((m.jsGet "id").jsGet "kind").eqStr "composite" <;>
  cases h6 : ((m.jsGet "id").jsGet "fields").truthy <;>
  cases h7 : ((m.jsGet "id").jsGet "fields").jsLength.eqNum 0 <;>
  simp [h1, h2, h3, h4, h5, h6, h7]

theorem validateModels_none_iff (ms : List JSValue) :
    validateModels ms = none ↔ ms.all modelValid = true := by
  induction ms with
  | nil => simp [validateModels]
  | cons m rest ih =>
    cases hm : validateModel m with
    | some e =>
      have hmv : ¬ (modelValid m = true) := by
        rw [← validateModel_none_iff, hm]
        simp
      simp [validateModels, hm, List.all_cons, hmv]
    | none =>
      have hmv : modelValid m = true := (validateModel_none_iff m).1 hm
      simp [validateModels, hm, List.all_cons, hmv, ih]

/-- Claim C10 (amended): `loadSchema` returns the schema exactly when the
version is present, numeric and truthy (non-zero), `models` is a non-empty
array, every model has a truthy string name and a truthy id with a truthy
kind, and every composite-kind id carries a truthy fields value whose
`length` is not strictly equal to 0; every other schema raises a validation
error. -/
theorem claim_C10 (schema : JSValue) :
    loadSchema schema = .ok schema ↔ amendedSchemaOK schema = true := by
  unfold loadSchema amendedSchemaOK
  cases h1 : (schema.jsGet "version").truthy with
  | false => simp [h1]
  | true =>
    cases h2 : (schema.jsGet "version").isNumber with
    | false => simp [h1, h2]
    | true =>
      cases h3 : (schema.jsGet "models").asArray with
      | none => simp [h1, h2, h3]
      | some models =>
        by_cases h4 : models.length = 0
        · simp [h1, h2, h3, h4]
        · cases h5 : validateModels models with
          | some e =>
            have hall : ¬ (models.all modelValid = true) := by
              rw [← validateModels_none_iff, h5]
              simp
            simp [h1, h2, h3, h4, h5, hall]
          | none =>
            have hall : models.all modelValid = true :=
              (validateModels_none_iff models).1 h5
            simp [h1, h2, h3, h4, h5, hall]

/-! ### Claim C6: the operation parameter of `buildStatement` -/

/-- Claim C6: for every model and identical args, `buildStatement` returns
the same Statement whether the operation is `findUnique`, `findFirst` or
`findMany` — the source destructures only `model` and `args`, never reading
`operation`.  Consequently, any deterministic ShapeId function of the
Statement (the engine's `computeShapeId`) maps the three read operations with
identical args to the same ShapeId, so they share a single cache entry. -/
theorem claim_C6 (model : String) (args : JSValue) (op1 op2 : PrismaReadOp)
    (shapeIdFn : Statement → String) :
    buildStatement model op1 args = buildStatement model op2 args ∧
    shapeIdFn (buildStatement model op1 args) =
      shapeIdFn (buildStatement model op2 args) :=
  ⟨rfl, rfl⟩

/-! ### Claims C3, C4, C5: the coordinator's write, transaction and insights
paths -/

/-- Claim C3: when the `execute` callback passed to `executeWrite` throws,
`executeWrite` re-throws that same error unchanged and the state is
untouched: no `cache.del` for any ShapeId returned by `engine.invalidate`
(the `evict` parameter, already computed), no evict insight, no transaction
buffer modification. -/
theorem claim_C3 (evict : List String) (err : String) (txContext : Option Nat)
    (emitFn : Seq.IEvent → Except String Unit) (s : Seq.CoordState) :
    Seq.executeWrite evict (.error err) txContext emitFn s = (.error err, s) :=
  rfl

theorem emitAll_ok (emitFn : Seq.IEvent → Except String Unit)
    (ty : Seq.IEventType) (keys : List String) (s : Seq.CoordState)
    (hok : ∀ e, emitFn e = .ok ()) :
    Seq.emitAll emitFn ty keys s =
      (.ok (), { s with emitted := s.emitted ++ keys.map fun k => ⟨k, ty⟩ }) := by
  induction keys generalizing s with
  | nil => simp [Seq.emitAll]
  | cons k rest ih =>
    simp only [Seq.emitAll, hok ⟨k, ty⟩, List.map_cons]
    rw [ih]
    simp

/-- Claim C4: a write with a `txContext` holding an active buffer performs no
`cache.del` and no insight emission, only unioning its eviction set into the
buffer; `commitTransaction` deletes every buffered ShapeId, emits one evict
insight per ShapeId (here under a non-throwing consumer) and removes the
buffer; `rollbackTransaction` removes the buffer with no deletions and no
insights, regardless of the writes having succeeded. -/
theorem claim_C4 :
    (∀ (evict : List String) (result : Nat) (t : Nat)
        (emitFn : Seq.IEvent → Except String Unit) (s : Seq.CoordState)
        (pending : List String), mapGet s.txBuffers t = some pending →
      Seq.executeWrite evict (.ok result) (some t) emitFn s =
        (.ok result,
          { s with txBuffers := mapSet s.txBuffers t (Seq.addAll pending evict) }))
    ∧ (∀ (t : Nat) (emitFn : Seq.IEvent → Except String Unit)
        (s : Seq.CoordState) (pending : List String),
        mapGet s.txBuffers t = some pending → (∀ e, emitFn e = .ok ()) →
      Seq.commitTransaction t emitFn s =
        (.ok (),
          { s with
            cache := pending.foldl (fun c k => mapDelete c k) s.cache,
            delLog := s.delLog ++ pending,
            emitted := s.emitted ++ pending.map (fun k => ⟨k, .evict⟩),
            txBuffers := mapDelete s.txBuffers t }))
    ∧ (∀ (t : Nat) (s : Seq.CoordState),
        Seq.rollbackTransaction t s =
          { s with txBuffers := mapDelete s.txBuffers t }) := by
  refine ⟨fun evict result t emitFn s pending h => ?_,
    fun t emitFn s pending h hok => ?_, fun t s => rfl⟩
  · simp [Seq.executeWrite, h]
  · simp only [Seq.commitTransaction, h]
    rw [emitAll_ok _ _ _ _ hok]

/-- Witness for claim C4 at concrete inputs: a buffered write, a commit of a
two-element buffer, and a rollback. -/
theorem claim_C4_witness :
    (Seq.executeWrite ["B", "C"] (.ok 7) (some 0) (fun _ => .ok ())
        ⟨[("A", 1)], [(0, ["A", "B"])], [], [], 0, 0⟩ =
      (.ok 7,
        { (⟨[("A", 1)], [(0, ["A", "B"])], [], [], 0, 0⟩ : Seq.CoordState) with
          txBuffers := mapSet [(0, ["A", "B"])] 0
            (Seq.addAll ["A", "B"] ["B", "C"]) })) ∧
    (Seq.commitTransaction 0 (fun _ => .ok ())
        ⟨[("A", 1), ("B", 2)], [(0, ["A", "B"])], [], [], 0, 0⟩ =
      (.ok (),
        { (⟨[("A", 1), ("B", 2)], [(0, ["A", "B"])], [], [], 0, 0⟩ :
            Seq.CoordState) with
          cache := ["A", "B"].foldl (fun c k => mapDelete c k)
            [("A", 1), ("B", 2)],
          delLog := [] ++ ["A", "B"],
          emitted := [] ++ ["A", "B"].map (fun k => ⟨k, .evict⟩),
          txBuffers := mapDelete [(0, ["A", "B"])] 0 })) ∧
    (Seq.rollbackTransaction 0 ⟨[], [(0, ["A"])], [], [], 0, 0⟩ =
      { (⟨[], [(0, ["A"])], [], [], 0, 0⟩ : Seq.CoordState) with
        txBuffers := mapDelete [(0, ["A"])] 0 }) :=
  ⟨claim_C4.1 ["B", "C"] 7 0 (fun _ => .ok ())
      ⟨[("A", 1)], [(0, ["A", "B"])], [], [], 0, 0⟩ ["A", "B"] rfl,
    claim_C4.2.1 0 (fun _ => .ok ())
      ⟨[("A", 1), ("B", 2)], [(0, ["A", "B"])], [], [], 0, 0⟩ ["A", "B"] rfl
      (fun _ => rfl),
    claim_C4.2.2 0 ⟨[], [(0, ["A"])], [], [], 0, 0⟩⟩

/-- Claim C5, counterexample.  The claim states that a throwing insights
consumer must not make `executeRead` fail.  With a cached entry for `"S"`
and a consumer that throws, `executeRead` returns the consumer's error
instead of the cached result: the emission is not wrapped in any try/catch. -/
theorem claim_C5_counterexample :
    (Seq.executeRead "S" (.ok 0) (fun _ => .error "boom")
        ⟨[("S", 7)], [], [], [], 0, 0⟩).1 = .error "boom" ∧
    (Seq.executeRead "S" (.ok 0) (fun _ => .error "boom")
        ⟨[("S", 7)], [], [], [], 0, 0⟩).1 ≠ .ok 7 := by
  constructor
  · rfl
  · intro h
    simp [Seq.executeRead, mapGet] at h

/-- Claim C5 (amended): a throwing insights consumer propagates its error out
of `executeRead` (hit path: the error surfaces instead of the cached result),
out of `executeWrite` (immediate-eviction path: the cache deletions are all
performed first, then the first emission throws), and out of
`commitTransaction` (deletions performed, buffer entry left in place). -/
theorem claim_C5 :
    (∀ (sid : String) (r : Nat) (s : Seq.CoordState) (msg : String)
        (emitFn : Seq.IEvent → Except String Unit)
        (execRes : Except String Nat),
      mapGet s.cache sid = some r → emitFn ⟨sid, .hit⟩ = .error msg →
      (Seq.executeRead sid execRes emitFn s).1 = .error msg)
    ∧ (∀ (sid : String) (rest : List String) (result : Nat)
        (s : Seq.CoordState) (msg : String)
        (emitFn : Seq.IEvent → Except String Unit),
      emitFn ⟨sid, .evict⟩ = .error msg →
      (Seq.executeWrite (sid :: rest) (.ok result) none emitFn s).1 =
        .error msg ∧
      (Seq.executeWrite (sid :: rest) (.ok result) none emitFn s).2.delLog =
        s.delLog ++ (sid :: rest))
    ∧ (∀ (t : Nat) (sid : String) (rest : List String) (s : Seq.CoordState)
        (msg : String) (emitFn : Seq.IEvent → Except String Unit),
      mapGet s.txBuffers t = some (sid :: rest) →
      emitFn ⟨sid, .evict⟩ = .error msg →
      (Seq.commitTransaction t emitFn s).1 = .error msg ∧
      (Seq.commitTransaction t emitFn s).2.delLog =
        s.delLog ++ (sid :: rest) ∧
      mapGet (Seq.commitTransaction t emitFn s).2.txBuffers t =
        some (sid :: rest)) := by
  refine ⟨fun sid r s msg emitFn execRes hc he => ?_,
    fun sid rest result s msg emitFn he => ?_,
    fun t sid rest s msg emitFn hb he => ?_⟩
  · simp [Seq.executeRead, hc, he]
  · constructor <;> simp [Seq.executeWrite, Seq.immediateEvict, Seq.emitAll, he]
  · refine ⟨?_, ?_, ?_⟩ <;>
      simp [Seq.commitTransaction, Seq.emitAll, hb, he]

/-- Witness for the amended claim C5 at concrete inputs, with a consumer that
always throws `"boom"`. -/
theorem claim_C5_witness :
    ((Seq.executeRead "S" (.ok 0) (fun _ => .error "boom")
        ⟨[("S", 7)], [], [], [], 0, 0⟩).1 = .error "boom") ∧
    ((Seq.executeWrite ["A", "B"] (.ok 5) none (fun _ => .error "boom")
        ⟨[("A", 1)], [], [], [], 0, 0⟩).1 = .error "boom" ∧
      (Seq.executeWrite ["A", "B"] (.ok 5) none (fun _ => .error "boom")
        ⟨[("A", 1)], [], [], [], 0, 0⟩).2.delLog = [] ++ ["A", "B"]) ∧
    ((Seq.commitTransaction 0 (fun _ => .error "boom")
        ⟨[("A", 1)], [(0, ["A", "B"])], [], [], 0, 0⟩).1 = .error "boom" ∧
      (Seq.commitTransaction 0 (fun _ => .error "boom")
        ⟨[("A", 1)], [(0, ["A", "B"])], [], [], 0, 0⟩).2.delLog =
        [] ++ ["A", "B"] ∧
      mapGet (Seq.commitTransaction 0 (fun _ => .error "boom")
        ⟨[("A", 1)], [(0, ["A", "B"])], [], [], 0, 0⟩).2.txBuffers 0 =
        some ["A", "B"]) :=
  ⟨claim_C5.1 "S" 7 ⟨[("S", 7)], [], [], [], 0, 0⟩ "boom" (fun _ => .error "boom")
      (.ok 0) rfl rfl,
    claim_C5.2.1 "A" ["B"] 5 ⟨[("A", 1)], [], [], [], 0, 0⟩ "boom"
      (fun _ => .error "boom") rfl,
    claim_C5.2.2 0 "A" ["B"] ⟨[("A", 1)], [(0, ["A", "B"])], [], [], 0, 0⟩
      "boom" (fun _ => .error "boom") rfl rfl⟩

/-! ### Claim C1: single-flight timeout behaviour -/

/-- Claim C1, counterexample.  The claim states that after a timeout the slow
execution's result is not stored in the cache under that ShapeId unless a new
waiter has re-published it.  In the trace below one reader publishes a
flight, the timeout fires, the reader fails and releases the map entry
(nothing re-publishes), and the slow `execute` then completes — yet the final
cache holds its result: the promise body calls `cache.set` unconditionally,
with no identity check against the in-flight map. -/
theorem claim_C1_counterexample :
    ¬ (∀ s : Coord.SFState,
        Coord.run [.call 0, .timerFire 0, .resume 0, .complete 0 42]
          (Coord.init 1) = some s → s.cache = none) := by
  intro hcl
  have h := hcl
    ⟨some 42, none, [⟨0, some 42, .timedOut, true⟩], [.doneTimeout],
      1, 0, 1, [42], 1⟩ rfl
  cases h

/-- Claim C1 (amended): when the single-flight timeout fires on a pending
race, the race settles timed out, the awaiting readers fail with the timeout
error, and the publisher's `finally` releases the in-flight map entry; the
underlying execution's later completion never touches the in-flight map and
never overrides the timed-out race (so it cannot influence the waiters of
the raced promise) — but it does store its result in the cache (and registers
the query) unconditionally, whether or not a new waiter has re-published the
ShapeId. -/
theorem claim_C1 :
    (∀ (s s2 : Coord.SFState) (f : Nat) (fl : Coord.Flight),
      Coord.step (.timerFire f) s = some s2 → s.flights.get? f = some fl →
      fl.race = .pending →
      (s2.flights.get? f).map Coord.Flight.race = some .timedOut)
    ∧ (∀ (s s2 : Coord.SFState) (i f : Nat) (fl : Coord.Flight),
      Coord.step (.resume i) s = some s2 →
      s.readers.get? i = some (.joined f) → s.flights.get? f = some fl →
      fl.race = .timedOut →
      s2.readers.get? i = some .doneTimeout ∧
      (fl.publisher = i → s2.inflight = none))
    ∧ (∀ (s s2 : Coord.SFState) (f r : Nat),
      Coord.step (.complete f r) s = some s2 →
      s2.inflight = s.inflight ∧ s2.cache = some r ∧
      s2.setLog = s.setLog ++ [r] ∧
      (∀ fl, s.flights.get? f = some fl → fl.race = .timedOut →
        (s2.flights.get? f).map Coord.Flight.race = some .timedOut) ∧
      (∀ (g : Nat) (fl : Coord.Flight), g ≠ f → s.flights.get? g = some fl →
        s2.flights.get? g = some fl)) := by
  refine ⟨fun s s2 f fl h hfl hrace => ?_,
    fun s s2 i f fl h hrd hfl hrace => ?_, fun s s2 f r h => ?_⟩
  · simp only [Coord.step, hfl] at h
    cases ht : fl.timerFired with
    | true => rw [ht] at h; cases h
    | false =>
      rw [ht] at h
      rw [if_neg (by simp)] at h
      injection h with h2
      subst h2
      have hlt := (List.get?_eq_some.mp hfl).1
      rw [List.get?_set_eq_of_lt _ hlt]
      simp [hrace]
  · simp only [Coord.step, hrd, hfl, hrace] at h
    have hlt := (List.get?_eq_some.mp hrd).1
    by_cases hp : fl.publisher = i
    · rw [if_pos hp] at h
      injection h with h2
      subst h2
      exact ⟨List.get?_set_eq_of_lt _ hlt, fun _ => rfl⟩
    · rw [if_neg hp] at h
      injection h with h2
      subst h2
      exact ⟨List.get?_set_eq_of_lt _ hlt, fun hc => absurd hc hp⟩
  · cases hfl : s.flights.get? f with
    | none =>
      simp only [Coord.step, hfl] at h
      cases h
    | some fl =>
      simp only [Coord.step, hfl] at h
      cases hed : fl.execDone with
      | some x => rw [hed] at h; cases h
      | none =>
        rw [hed] at h
        injection h with h2
        subst h2
        refine ⟨rfl, rfl, rfl, fun fl2 hfl2 hrace => ?_,
          fun g fl2 hne hg => ?_⟩
        · injection hfl2 with h3
          subst h3
          have hlt := (List.get?_eq_some.mp hfl).1
          dsimp only
          rw [List.get?_set_eq_of_lt _ hlt]
          simp [hrace]
        · dsimp only
          rw [List.get?_set_ne _ _ (fun hc => hne hc.symm)]
          exact hg

/-- Witness for the amended claim C1 along a concrete timed-out flight:
publish, timer fires, publisher resumes with the timeout (entry released),
then the slow execution completes and stores 42 in the cache. -/
theorem claim_C1_witness :
    ((Coord.step (.timerFire 0)
        ⟨none, some 0, [⟨0, none, .pending, false⟩], [.joined 0],
          1, 0, 1, [], 0⟩ =
      some ⟨none, some 0, [⟨0, none, .timedOut, true⟩], [.joined 0],
          1, 0, 1, [], 0⟩) ∧
      ((⟨none, some 0, [⟨0, none, .timedOut, true⟩], [.joined 0],
          1, 0, 1, [], 0⟩ : Coord.SFState).flights.get? 0).map
        Coord.Flight.race = some .timedOut) ∧
    ((Coord.step (.resume 0)
        ⟨none, some 0, [⟨0, none, .timedOut, true⟩], [.joined 0],
          1, 0, 1, [], 0⟩ =
      some ⟨none, none, [⟨0, none, .timedOut, true⟩], [.doneTimeout],
          1, 0, 1, [], 0⟩) ∧
      ((⟨none, none, [⟨0, none, .timedOut, true⟩], [.doneTimeout],
          1, 0, 1, [], 0⟩ : Coord.SFState).readers.get? 0 =
        some .doneTimeout ∧
        ((⟨0, none, .timedOut, true⟩ : Coord.Flight).publisher = 0 →
          (⟨none, none, [⟨0, none, .timedOut, true⟩], [.doneTimeout],
            1, 0, 1, [], 0⟩ : Coord.SFState).inflight = none))) ∧
    ((Coord.step (.complete 0 42)
        ⟨none, none, [⟨0, none, .timedOut, true⟩], [.doneTimeout],
          1, 0, 1, [], 0⟩ =
      some ⟨some 42, none, [⟨0, some 42, .timedOut, true⟩], [.doneTimeout],
          1, 0, 1, [42], 1⟩) ∧
      ((⟨some 42, none, [⟨0, some 42, .timedOut, true⟩], [.doneTimeout],
          1, 0, 1, [42], 1⟩ : Coord.SFState).inflight =
        (⟨none, none, [⟨0, none, .timedOut, true⟩], [.doneTimeout],
          1, 0, 1, [], 0⟩ : Coord.SFState).inflight ∧
        (⟨some 42, none, [⟨0, some 42, .timedOut, true⟩], [.doneTimeout],
          1, 0, 1, [42], 1⟩ : Coord.SFState).cache = some 42)) :=
  ⟨⟨rfl, claim_C1.1
      ⟨none, some 0, [⟨0, none, .pending, false⟩], [.joined 0], 1, 0, 1, [], 0⟩
      ⟨none, some 0, [⟨0, none, .timedOut, true⟩], [.joined 0], 1, 0, 1, [], 0⟩
      0 ⟨0, none, .pending, false⟩ rfl rfl rfl⟩,
    ⟨rfl, (claim_C1.2.1
      ⟨none, some 0, [⟨0, none, .timedOut, true⟩], [.joined 0], 1, 0, 1, [], 0⟩
      ⟨none, none, [⟨0, none, .timedOut, true⟩], [.doneTimeout], 1, 0, 1, [], 0⟩
      0 0 ⟨0, none, .timedOut, true⟩ rfl rfl rfl rfl)⟩,
    ⟨rfl,
      ⟨(claim_C1.2.2
        ⟨none, none, [⟨0, none, .timedOut, true⟩], [.doneTimeout],
          1, 0, 1, [], 0⟩
        ⟨some 42, none, [⟨0, some 42, .timedOut, true⟩], [.doneTimeout],
          1, 0, 1, [42], 1⟩
        0 42 rfl).1,
      (claim_C1.2.2
        ⟨none, none, [⟨0, none, .timedOut, true⟩], [.doneTimeout],
          1, 0, 1, [], 0⟩
        ⟨some 42, none, [⟨0, some 42, .timedOut, true⟩], [.doneTimeout],
          1, 0, 1, [42], 1⟩
        0 42 rfl).2.1⟩⟩⟩

/-! ### Claim C2: single-flight coalescing (timeout-free traces) -/

namespace Coord

theorem flights_singleton (s : SFState) (hinv : Inv s) (f : Nat)
    (fl : Flight) (hfl : s.flights.get? f = some fl) :
    f = 0 ∧ s.flights = [fl] := by
  have hlt := (List.get?_eq_some.mp hfl).1
  have hlen : s.flights.length = 1 := le_antisymm hinv.flen (by omega)
  have hf0 : f = 0 := by omega
  subst hf0
  obtain ⟨a, ha⟩ := List.length_eq_one.mp hlen
  rw [ha] at hfl
  simp only [List.get?] at hfl
  injection hfl with h2
  subst h2
  exact ⟨rfl, ha⟩

theorem flights_nil_of_none (s : SFState) (hinv : Inv s)
    (hc : s.cache = none) (hi : s.inflight = none) : s.flights = [] := by
  cases hfls : s.flights with
  | nil => rfl
  | cons fl rest =>
    exfalso
    have hmem : fl ∈ s.flights := by
      rw [hfls]
      exact List.mem_cons_self _ _
    obtain ⟨r, hr⟩ := hinv.infl_none hi fl hmem
    have h2 := ((hinv.fl fl hmem).2.2 r hr).2
    rw [hc] at h2
    cases h2

theorem step_readers_length (e : SFEvent) (s s2 : SFState)
    (h : step e s = some s2) : s2.readers.length = s.readers.length := by
  unfold step at h
  cases e <;> dsimp only at h <;> (repeat' split at h) <;>
    (try cases h) <;> (first | rfl | simp [List.length_set])

theorem inv_init (n : Nat) : Inv (init n) := by
  refine ⟨by simp [init], rfl, ?_, ?_, ?_, ?_, ?_, ?_⟩
  · intro fl2 hm
    simp [init] at hm
  · intro r hr
    simp [init] at hr
  · intro _ fl2 hm
    simp [init] at hm
  · intro j hj
    simp [init] at hj
  · intro _ fl2 hm
    simp [init] at hm
  · intro st hm
    have h2 := List.eq_of_mem_replicate (by simpa [init] using hm)
    subst h2
    trivial

theorem inv_step (e : SFEvent) (s s2 : SFState)
    (hnt : ∀ f, e ≠ .timerFire f) (hinv : Inv s)
    (h : step e s = some s2) : Inv s2 := by
  cases e with
  | timerFire f => exact absurd rfl (hnt f)
  | call i =>
    cases hrd : s.readers.get? i with
    | none =>
      simp only [step, hrd] at h
      cases h
    | some st =>
      cases st with
      | joined f =>
        simp only [step, hrd] at h
        cases h
      | doneHit r =>
        simp only [step, hrd] at h
        cases h
      | doneOk r =>
        simp only [step, hrd] at h
        cases h
      | doneTimeout =>
        simp only [step, hrd] at h
        cases h
      | start =>
        simp only [step, hrd] at h
        cases hc : s.cache with
        | some r =>
          rw [hc] at h
          dsimp only at h
          injection h with h2
          subst h2
          refine ⟨hinv.flen, hinv.exec, ?_, ?_, ?_, hinv.infl,
            hinv.infl_none, ?_⟩
          · intro fl2 hm
            have h3 := hinv.fl fl2 hm
            refine ⟨h3.1, h3.2.1, fun r2 hr2 => ⟨(h3.2.2 r2 hr2).1, ?_⟩⟩
            show (some r : Option Nat) = some r2
            rw [← hc]
            exact (h3.2.2 r2 hr2).2
          · intro r2 hr2
            have hr3 : (some r : Option Nat) = some r2 := hr2
            injection hr3 with hr4
            subst hr4
            exact hinv.cache_src _ hc
          · intro hcn
            have hcn2 : (some r : Option Nat) = none := hcn
            cases hcn2
          · intro st hm
            rcases List.mem_or_eq_of_mem_set hm with hm2 | hst
            · have hr2 := hinv.rd st hm2
              cases st with
              | start => trivial
              | joined f2 => exact hr2
              | doneHit r2 =>
                show (some r : Option Nat) = some r2
                rw [← hc]
                exact hr2
              | doneOk r2 => exact hr2
              | doneTimeout => exact hr2.elim
            · subst hst
              rfl
        | none =>
          rw [hc] at h
          dsimp only at h
          cases hi : s.inflight with
          | some f =>
            rw [hi] at h
            dsimp only at h
            injection h with h2
            subst h2
            refine ⟨hinv.flen, hinv.exec, ?_, ?_, ?_, ?_, ?_, ?_⟩
            · intro fl2 hm
              have h3 := hinv.fl fl2 hm
              refine ⟨h3.1, h3.2.1, fun r2 hr2 => ?_⟩
              exfalso
              have h4 := (h3.2.2 r2 hr2).2
              rw [hc] at h4
              cases h4
            · intro r2 hr2
              have hr3 : (none : Option Nat) = some r2 := hr2
              cases hr3
            · intro _ fl2 hm
              exact hinv.cache_none hc fl2 hm
            · intro j hj
              have hj2 : (some f : Option Nat) = some j := hj
              injection hj2 with hj3
              subst hj3
              exact hinv.infl f hi
            · intro hj
              have hj2 : (some f : Option Nat) = none := hj
              cases hj2
            · intro st hm
              rcases List.mem_or_eq_of_mem_set hm with hm2 | hst
              · have hr2 := hinv.rd st hm2
                cases st with
                | start => trivial
                | joined f2 => exact hr2
                | doneHit r2 =>
                  exfalso
                  have h4 : s.cache = some r2 := hr2
                  rw [hc] at h4
                  cases h4
                | doneOk r2 => exact hr2
                | doneTimeout => exact hr2.elim
              · subst hst
                exact hinv.infl f hi
          | none =>
            rw [hi] at h
            dsimp only at h
            injection h with h2
            subst h2
            have hnil := flights_nil_of_none s hinv hc hi
            have hexec0 : s.execCount = 0 := by rw [hinv.exec, hnil]; rfl
            refine ⟨?_, ?_, ?_, ?_, ?_, ?_, ?_, ?_⟩
            · show (s.flights ++ [_]).length ≤ 1
              simp [hnil]
            · show s.execCount + 1 = (s.flights ++ [_]).length
              simp [hnil, hexec0]
            · intro fl2 hm
              rw [hnil] at hm
              simp only [List.nil_append, List.mem_singleton] at hm
              subst hm
              refine ⟨rfl, by simp, ?_⟩
              intro r2 hr2
              cases hr2
            · intro r2 hr2
              have hr3 : (none : Option Nat) = some r2 := hr2
              cases hr3
            · intro _ fl2 hm
              rw [hnil] at hm
              simp only [List.nil_append, List.mem_singleton] at hm
              subst hm
              rfl
            · intro j hj
              have hj2 : some s.flights.length = some j := hj
              injection hj2 with hj3
              subst hj3
              constructor
              · rw [hnil]
                rfl
              · show (s.flights ++ [_]).length = 1
                simp [hnil]
            · intro hj
              have hj2 : some s.flights.length = (none : Option Nat) := hj
              cases hj2
            · intro st hm
              rcases List.mem_or_eq_of_mem_set hm with hm2 | hst
              · have hr := hinv.rd st hm2
                cases st with
                | start => trivial
                | joined f2 =>
                  exfalso
                  have h4 := hr.2
                  rw [hnil] at h4
                  cases h4
                | doneHit r2 =>
                  exfalso
                  have h4 : s.cache = some r2 := hr
                  rw [hc] at h4
                  cases h4
                | doneOk r2 =>
                  exfalso
                  obtain ⟨fl4, hfl4, _⟩ := hr
                  rw [hnil] at hfl4
                  cases hfl4
                | doneTimeout => exact hr.elim
              · subst hst
                constructor
                · rw [hnil]
                  rfl
                · show (s.flights ++ [_]).length = 1
                  simp [hnil]
  | complete f r =>
    cases hfl : s.flights.get? f with
    | none =>
      simp only [step, hfl] at h
      cases h
    | some fl =>
      simp only [step, hfl] at h
      cases hed : fl.execDone with
      | some x =>
        rw [hed] at h
        cases h
      | none =>
        rw [hed] at h
        injection h with h2
        subst h2
        obtain ⟨hf0, hfls⟩ := flights_singleton s hinv f fl hfl
        subst hf0
        have hmem : fl ∈ s.flights := by
          rw [hfls]
          exact List.mem_cons_self _ _
        have hflok := hinv.fl fl hmem
        have hrace : fl.race = .pending := by
          cases hr : fl.race with
          | pending => rfl
          | ok r2 =>
            have h3 := (hflok.2.2 r2 hr).1
            rw [hed] at h3
            cases h3
          | timedOut => exact absurd hr hflok.2.1
        have hfl2 : s.flights.set 0
            { fl with
              execDone := some r,
              race := (match fl.race with | RaceSt.pending => RaceSt.ok r | other => other) } =
            [{ fl with execDone := some r, race := .ok r }] := by
          rw [hfls, hrace]
          rfl
        refine ⟨?_, ?_, ?_, ?_, ?_, ?_, ?_, ?_⟩
        · show (s.flights.set 0 _).length ≤ 1
          rw [hfl2]
          exact le_refl 1
        · show s.execCount = (s.flights.set 0 _).length
          rw [hfl2, hinv.exec, hfls]
          rfl
        · intro fl3 hm
          rw [hfl2] at hm
          simp only [List.mem_singleton] at hm
          subst hm
          refine ⟨hflok.1, by simp, ?_⟩
          intro r2 hr2
          have hr3 : RaceSt.ok r = RaceSt.ok r2 := hr2
          injection hr3 with hr4
          subst hr4
          exact ⟨rfl, rfl⟩
        · intro r2 hr2
          have hr3 : (some r : Option Nat) = some r2 := hr2
          injection hr3 with hr4
          subst hr4
          exact ⟨_, hfl2, rfl⟩
        · intro hcn
          have hcn2 : (some r : Option Nat) = none := hcn
          cases hcn2
        · intro j hj
          have hj2 := hinv.infl j hj
          refine ⟨hj2.1, ?_⟩
          show (s.flights.set 0 _).length = 1
          rw [hfl2]
          rfl
        · intro hj fl3 hm
          rw [hfl2] at hm
          simp only [List.mem_singleton] at hm
          subst hm
          exact ⟨r, rfl⟩
        · intro st hm
          have hr := hinv.rd st hm
          cases st with
          | start => trivial
          | joined f2 =>
            refine ⟨hr.1, ?_⟩
            show (s.flights.set 0 _).length = 1
            rw [hfl2]
            rfl
          | doneHit r2 =>
            exfalso
            obtain ⟨fl4, hfl4, hfl4e⟩ := hinv.cache_src r2 hr
            rw [hfls] at hfl4
            have heq : fl = fl4 := by
              injection hfl4
            rw [← heq] at hfl4e
            rw [hed] at hfl4e
            cases hfl4e
          | doneOk r2 =>
            exfalso
            obtain ⟨fl4, hfl4, hfl4r⟩ := hr
            rw [hfls] at hfl4
            have heq : fl = fl4 := by
              injection hfl4
            rw [← heq] at hfl4r
            have h3 := (hflok.2.2 r2 hfl4r).1
            rw [hed] at h3
            cases h3
          | doneTimeout => exact hr.elim
  | resume i =>
    cases hrd : s.readers.get? i with
    | none =>
      simp only [step, hrd] at h
      cases h
    | some st =>
      cases st with
      | start =>
        simp only [step, hrd] at h
        cases h
      | doneHit r =>
        simp only [step, hrd] at h
        cases h
      | doneOk r =>
        simp only [step, hrd] at h
        cases h
      | doneTimeout =>
        simp only [step, hrd] at h
        cases h
      | joined f =>
        simp only [step, hrd] at h
        cases hfl : s.flights.get? f with
        | none =>
          rw [hfl] at h
          cases h
        | some fl =>
          rw [hfl] at h
          dsimp only at h
          obtain ⟨hf0, hfls⟩ := flights_singleton s hinv f fl hfl
          subst hf0
          have hmem : fl ∈ s.flights := by
            rw [hfls]
            exact List.mem_cons_self _ _
          have hflok := hinv.fl fl hmem
          cases hr : fl.race with
          | pending =>
            rw [hr] at h
            cases h
          | timedOut => exact absurd hr hflok.2.1
          | ok r =>
            rw [hr] at h
            dsimp only at h
            by_cases hp : fl.publisher = i
            · rw [if_pos hp] at h
              injection h with h2
              subst h2
              refine ⟨hinv.flen, hinv.exec, hinv.fl, hinv.cache_src,
                hinv.cache_none, ?_, ?_, ?_⟩
              · intro j hj
                have hj2 : (none : Option Nat) = some j := hj
                cases hj2
              · intro _ fl3 hm3
                rw [hfls] at hm3
                simp only [List.mem_singleton] at hm3
                subst hm3
                exact ⟨r, hr⟩
              · intro st hm
                rcases List.mem_or_eq_of_mem_set hm with hm2 | hst
                · exact hinv.rd st hm2
                · subst hst
                  exact ⟨fl, hfls, hr⟩
            · rw [if_neg hp] at h
              injection h with h2
              subst h2
              refine ⟨hinv.flen, hinv.exec, hinv.fl, hinv.cache_src,
                hinv.cache_none, hinv.infl, hinv.infl_none, ?_⟩
              intro st hm
              rcases List.mem_or_eq_of_mem_set hm with hm2 | hst
              · exact hinv.rd st hm2
              · subst hst
                exact ⟨fl, hfls, hr⟩

theorem inv_run (tr : List SFEvent) (s s2 : SFState)
    (hnt : noTimer tr = true) (hinv : Inv s) (h : run tr s = some s2) :
    Inv s2 ∧ s2.readers.length = s.readers.length := by
  induction tr generalizing s with
  | nil =>
    unfold run at h
    injection h with h2
    subst h2
    exact ⟨hinv, rfl⟩
  | cons e rest ih =>
    unfold run at h
    cases hst : step e s with
    | none =>
      rw [hst] at h
      cases h
    | some s1 =>
      rw [hst] at h
      have hnte : ∀ f, e ≠ SFEvent.timerFire f := by
        intro f heq
        subst heq
        simp [noTimer] at hnt
      have hnt2 : noTimer rest = true := by
        simp only [noTimer, List.all_cons, Bool.and_eq_true] at hnt
        exact hnt.2
      have h1 := inv_step e s s1 hnte hinv hst
      have h2 := ih s1 hnt2 h1 h
      exact ⟨h2.1, h2.2.trans (step_readers_length e s s1 hst)⟩

end Coord

/-- Claim C2: for a ShapeId with no pre-existing cache entry, any
timeout-free interleaving of `n` concurrent `executeRead` calls invokes the
supplied `execute` at most once (exactly once as soon as every caller has
resolved, for `n ≥ 1`), every caller resolves to that single execution's
outcome (either directly or as a cache hit of the value it stored), and at
any instant at most one in-flight execution exists for the ShapeId.  The
theorem quantifies over every reachable state, so the two bounds hold at
every instant of every schedule. -/
theorem claim_C2 (n : Nat) (tr : List Coord.SFEvent) (s : Coord.SFState)
    (hnt : Coord.noTimer tr = true)
    (hrun : Coord.run tr (Coord.init n) = some s) :
    s.execCount ≤ 1 ∧ Coord.runningCount s ≤ 1 ∧
    ((∀ st ∈ s.readers, st.isDone = true) → 1 ≤ n →
      s.execCount = 1 ∧
      ∃ r, ∀ st ∈ s.readers, st = .doneHit r ∨ st = .doneOk r) := by
  obtain ⟨hinv, hlen⟩ :=
    Coord.inv_run tr (Coord.init n) s hnt (Coord.inv_init n) hrun
  have hlen2 : s.readers.length = n := by
    rw [hlen]
    simp [Coord.init]
  refine ⟨?_, ?_, ?_⟩
  · rw [hinv.exec]
    exact hinv.flen
  · exact le_trans (List.length_filter_le _ s.flights) hinv.flen
  · intro hall hn
    have hne : s.readers ≠ [] := by
      intro hnil
      rw [hnil] at hlen2
      simp at hlen2
      omega
    obtain ⟨st0, hst0⟩ := List.exists_mem_of_ne_nil s.readers hne
    have hd0 := hall st0 hst0
    have hr0 := hinv.rd st0 hst0
    have hflight : ∃ fl r0, s.flights = [fl] ∧ fl.execDone = some r0 := by
      cases st0 with
      | start => simp [Coord.RdSt.isDone] at hd0
      | joined f => simp [Coord.RdSt.isDone] at hd0
      | doneTimeout => exact hr0.elim
      | doneHit r2 =>
        obtain ⟨fl, hfl, hfe⟩ := hinv.cache_src r2 hr0
        exact ⟨fl, r2, hfl, hfe⟩
      | doneOk r2 =>
        obtain ⟨fl, hfl, hfr⟩ := hr0
        have hmem : fl ∈ s.flights := by
          rw [hfl]
          exact List.mem_cons_self _ _
        exact ⟨fl, r2, hfl, ((hinv.fl fl hmem).2.2 r2 hfr).1⟩
    obtain ⟨fl, r0, hfls, hfe⟩ := hflight
    constructor
    · rw [hinv.exec, hfls]
      rfl
    · refine ⟨r0, fun st hst => ?_⟩
      have hd := hall st hst
      have hr := hinv.rd st hst
      cases st with
      | start => simp [Coord.RdSt.isDone] at hd
      | joined f => simp [Coord.RdSt.isDone] at hd
      | doneTimeout => exact hr.elim
      | doneHit r2 =>
        left
        obtain ⟨fl4, hfl4, hfe4⟩ := hinv.cache_src r2 hr
        rw [hfls] at hfl4
        have heq : fl = fl4 := by injection hfl4
        rw [← heq] at hfe4
        rw [hfe] at hfe4
        injection hfe4 with h5
        rw [h5]
      | doneOk r2 =>
        right
        obtain ⟨fl4, hfl4, hfr4⟩ := hr
        rw [hfls] at hfl4
        have heq : fl = fl4 := by injection hfl4
        rw [← heq] at hfr4
        have hmem : fl ∈ s.flights := by
          rw [hfls]
          exact List.mem_cons_self _ _
        have h5 := ((hinv.fl fl hmem).2.2 r2 hfr4).1
        rw [hfe] at h5
        injection h5 with h6
        rw [h6]

/-- Witness for claim C2: two concurrent readers of the same ShapeId, the
second joining the first's published flight; the DB resolves 7, both readers
resolve 7, and `execute` ran exactly once. -/
theorem claim_C2_witness :
    Coord.noTimer [.call 0, .call 1, .complete 0 7, .resume 1, .resume 0]
      = true ∧
    Coord.run [.call 0, .call 1, .complete 0 7, .resume 1, .resume 0]
      (Coord.init 2) =
      some ⟨some 7, none, [⟨0, some 7, .ok 7, false⟩], [.doneOk 7, .doneOk 7],
        2, 0, 1, [7], 1⟩ ∧
    ((⟨some 7, none, [⟨0, some 7, .ok 7, false⟩], [.doneOk 7, .doneOk 7],
        2, 0, 1, [7], 1⟩ : Coord.SFState).execCount ≤ 1 ∧
      Coord.runningCount ⟨some 7, none, [⟨0, some 7, .ok 7, false⟩],
        [.doneOk 7, .doneOk 7], 2, 0, 1, [7], 1⟩ ≤ 1 ∧
      ((∀ st ∈ (⟨some 7, none, [⟨0, some 7, .ok 7, false⟩],
          [.doneOk 7, .doneOk 7], 2, 0, 1, [7], 1⟩ :
            Coord.SFState).readers, st.isDone = true) → 1 ≤ 2 →
        (⟨some 7, none, [⟨0, some 7, .ok 7, false⟩], [.doneOk 7, .doneOk 7],
          2, 0, 1, [7], 1⟩ : Coord.SFState).execCount = 1 ∧
        ∃ r, ∀ st ∈ (⟨some 7, none, [⟨0, some 7, .ok 7, false⟩],
          [.doneOk 7, .doneOk 7], 2, 0, 1, [7], 1⟩ :
            Coord.SFState).readers,
          st = .doneHit r ∨ st = .doneOk r)) :=
  ⟨rfl, rfl,
    claim_C2 2 [.call 0, .call 1, .complete 0 7, .resume 1, .resume 0]
      ⟨some 7, none, [⟨0, some 7, .ok 7, false⟩], [.doneOk 7, .doneOk 7],
        2, 0, 1, [7], 1⟩ rfl rfl⟩

end IncludeKit
